import Mathlib

set_option maxRecDepth 100000

/-!
Verification development for the well/completion activity classifier
(`well_type_calculator.py` of WellProductionApp).

The pipeline is embedded shallowly: pandas DataFrames become lists of
records, raw volumes and rates are exact rationals, dates are (year, month)
pairs.  Every definition below mirrors the corresponding source function;
the purely descriptive `remarks` text column and the UI progress callbacks
are not modelled (the spec notes they have no effect on classification).
-/

namespace WellApp

/-- Operating-mode labels used by the classifier (`well_type` values). -/
inductive WellType where
  | PRODUCTION
  | INJECTION
  | DUAL
  | UNKNOWN
deriving DecidableEq, Repr

/-- A raw monthly production reading: columns `COMP_S_NAME`, `PROD_DT`
(reduced to its year and month), `VO_OIL_PROD`, `VO_WAT_PROD`. -/
structure ProdRow where
  comp_s_name : String
  prod_year : ℕ
  prod_month : ℕ
  vo_oil_prod : ℚ
  vo_wat_prod : ℚ
deriving DecidableEq, Repr

/-- A raw monthly injection reading: columns `COMPLETION_LEGAL_NAME`,
`Date` (year and month), `Water_INJ_CALDAY`. -/
structure InjRow where
  completion_legal_name : String
  inj_year : ℕ
  inj_month : ℕ
  water_inj_calday : ℚ
deriving DecidableEq, Repr

/-- The data store handed to `WellTypeCalculator.__init__`: the two raw
tables plus the read-only well/completion/reservoir mappings. -/
structure DataStore where
  production_data : List ProdRow
  injection_data : List InjRow
  well_to_completions : List (String × List String)
  completion_to_reservoir : List (String × String)
deriving DecidableEq, Repr

/-- Gregorian leap-year test, as used by pandas `dt.daysinmonth`. -/
def isLeapYear (y : ℕ) : Bool :=
  (y % 4 == 0 && y % 100 != 0) || y % 400 == 0

/-- Number of calendar days in month `m` of year `y` (`dt.daysinmonth`). -/
def daysInMonth (y m : ℕ) : ℕ :=
  if m = 2 then (if isLeapYear y then 29 else 28)
  else if m = 4 ∨ m = 6 ∨ m = 9 ∨ m = 11 then 30
  else 31

/-- The `(completion, well)` assignment sequence produced by iterating
`data_store.well_to_completions` (`_build_completion_to_well_map`). -/
def completionAssignments (wtc : List (String × List String)) : List (String × String) :=
  wtc.flatMap fun p => p.2.map fun c => (c, p.1)

/-- Lookup in the completion-to-well dictionary.  Python dict assignment
overwrites, so the last assignment for a completion wins. -/
def completionToWell (wtc : List (String × List String)) (c : String) : Option String :=
  ((completionAssignments wtc).reverse.find? fun q => decide (q.1 = c)).map Prod.snd

/-- `completion_to_reservoir.get(comp, 'UNKNOWN')`. -/
def completionToReservoir (ctr : List (String × String)) (c : String) : String :=
  ((ctr.find? fun q => decide (q.1 = c)).map Prod.snd).getD "UNKNOWN"

/-- A row of the well-level monthly production table
(`prod_monthly`: well_name, year, month, oil_rate, water_rate). -/
structure ProdMonthly where
  well_name : String
  year : ℕ
  month : ℕ
  oil_rate : ℚ
  water_rate : ℚ
deriving DecidableEq, Repr

/-- A row of the well-level monthly injection table (`inj_monthly`). -/
structure InjMonthly where
  well_name : String
  year : ℕ
  month : ℕ
  water_inj_rate : ℚ
deriving DecidableEq, Repr

/-- Generic model of `DataFrame.groupby(keys).agg('sum')`: one output row
per distinct key, keys sorted ascending (pandas sorts group keys), each row
built from the key and the sub-list of rows carrying that key. -/
def groupBySum {α K R : Type} [DecidableEq K] (leB : K → K → Bool) (key : α → K)
    (build : K → List α → R) (l : List α) : List R :=
  (List.insertionSort (fun a b => leB a b = true) (l.map key).dedup).map
    fun k => build k (l.filter fun x => decide (key x = k))

/-- Ascending lexicographic order on well-level group keys
`(well_name, year, month)`. -/
def wkeyLeB (a b : String × ℕ × ℕ) : Bool :=
  decide (a.1 < b.1) || (decide (a.1 = b.1) &&
    (decide (a.2.1 < b.2.1) || (decide (a.2.1 = b.2.1) && decide (a.2.2 ≤ b.2.2))))

/-- One production reading mapped to a well with calendar-day rates
(the row-wise part of `_process_production_data`); unmappable completions
give `none` and are dropped. -/
def mapProdRow (wtc : List (String × List String)) (r : ProdRow) : Option ProdMonthly :=
  match completionToWell wtc r.comp_s_name with
  | none => none
  | some w =>
      some ⟨w, r.prod_year, r.prod_month,
        r.vo_oil_prod / (daysInMonth r.prod_year r.prod_month : ℚ),
        r.vo_wat_prod / (daysInMonth r.prod_year r.prod_month : ℚ)⟩

/-- Grouping step of `_process_production_data`. -/
def groupProdMonthly (l : List ProdMonthly) : List ProdMonthly :=
  groupBySum wkeyLeB (fun r => (r.well_name, r.year, r.month))
    (fun k g => ⟨k.1, k.2.1, k.2.2, ((g.map ProdMonthly.oil_rate).sum),
      ((g.map ProdMonthly.water_rate).sum)⟩) l

/-- `_process_production_data`. -/
def process_production_data (ds : DataStore) : List ProdMonthly :=
  if ds.production_data = [] then []
  else groupProdMonthly (ds.production_data.filterMap (mapProdRow ds.well_to_completions))

/-- Row-wise part of `_process_injection_data`. -/
def mapInjRow (wtc : List (String × List String)) (r : InjRow) : Option InjMonthly :=
  match completionToWell wtc r.completion_legal_name with
  | none => none
  | some w =>
      some ⟨w, r.inj_year, r.inj_month,
        r.water_inj_calday / (daysInMonth r.inj_year r.inj_month : ℚ)⟩

/-- Grouping step of `_process_injection_data`. -/
def groupInjMonthly (l : List InjMonthly) : List InjMonthly :=
  groupBySum wkeyLeB (fun r => (r.well_name, r.year, r.month))
    (fun k g => ⟨k.1, k.2.1, k.2.2, ((g.map InjMonthly.water_inj_rate).sum)⟩) l

/-- `_process_injection_data`. -/
def process_injection_data (ds : DataStore) : List InjMonthly :=
  if ds.injection_data = [] then []
  else groupInjMonthly (ds.injection_data.filterMap (mapInjRow ds.well_to_completions))

/-- `_calculate_historical_well_types`: for each well occurring in either
monthly table, whether its summed production (oil or water) rate is
positive and whether its summed injection rate is positive. -/
def calculate_historical_well_types (prodM : List ProdMonthly) (injM : List InjMonthly) :
    List (String × Bool × Bool) :=
  ((prodM.map ProdMonthly.well_name) ++ (injM.map InjMonthly.well_name)).dedup.map fun w =>
    (w,
      decide (0 < (((prodM.filter fun r => decide (r.well_name = w)).map ProdMonthly.oil_rate).sum)) ||
      decide (0 < (((prodM.filter fun r => decide (r.well_name = w)).map ProdMonthly.water_rate).sum)),
      decide (0 < (((injM.filter fun r => decide (r.well_name = w)).map InjMonthly.water_inj_rate).sum)))

/-- A row of the merged/classified well-level table (the output schema of
`_combine_and_classify_data`, minus the descriptive `remarks` text). -/
structure MRow where
  well_name : String
  year : ℕ
  month : ℕ
  well_type : WellType
  oil_rate : ℚ
  water_rate : ℚ
  water_inj_rate : ℚ
  has_dual_function : ℕ
deriving DecidableEq, Repr

/-- Join condition of the well-level outer merge. -/
def wellKeyMatches (p : ProdMonthly) (i : InjMonthly) : Bool :=
  decide (i.well_name = p.well_name) && decide (i.year = p.year) && decide (i.month = p.month)

/-- A production row left without an injection match: `water_inj_rate`
filled with 0. -/
def prodOnlyMRow (p : ProdMonthly) : MRow :=
  ⟨p.well_name, p.year, p.month, .UNKNOWN, p.oil_rate, p.water_rate, 0, 0⟩

/-- A production row joined with a matching injection row. -/
def joinedMRow (p : ProdMonthly) (i : InjMonthly) : MRow :=
  ⟨p.well_name, p.year, p.month, .UNKNOWN, p.oil_rate, p.water_rate, i.water_inj_rate, 0⟩

/-- An injection row left without a production match: oil and water rates
filled with 0. -/
def injOnlyMRow (i : InjMonthly) : MRow :=
  ⟨i.well_name, i.year, i.month, .UNKNOWN, 0, 0, i.water_inj_rate, 0⟩

/-- `pd.merge(prod_monthly, inj_monthly, on=[well_name, year, month],
how='outer')` followed by `fillna(0)`: every production row joined with its
matching injection rows (or zero-filled), then the unmatched injection rows
zero-filled.  `well_type` starts at `UNKNOWN`, `has_dual_function` at 0. -/
def mergeOuterWell (prodM : List ProdMonthly) (injM : List InjMonthly) : List MRow :=
  (prodM.flatMap fun p =>
    if injM.filter (wellKeyMatches p) = [] then [prodOnlyMRow p]
    else (injM.filter (wellKeyMatches p)).map (joinedMRow p))
  ++ ((injM.filter fun i => !(prodM.any fun p => wellKeyMatches p i)).map injOnlyMRow)

/-- `has_current_prod` for one merged row. -/
def hasProdRow (r : MRow) : Prop := 0 < r.oil_rate ∨ 0 < r.water_rate

/-- `has_current_inj` for one merged row. -/
def hasInjRow (r : MRow) : Prop := 0 < r.water_inj_rate

instance (r : MRow) : Decidable (hasProdRow r) := by unfold hasProdRow; infer_instance

instance (r : MRow) : Decidable (hasInjRow r) := by unfold hasInjRow; infer_instance

/-- The vectorised CASE 1-3 classification of `_combine_and_classify_data`
(rows with neither production nor injection keep the `UNKNOWN` default). -/
def classifyRow (r : MRow) : MRow :=
  if hasProdRow r ∧ hasInjRow r then {r with well_type := .DUAL, has_dual_function := 1}
  else if hasProdRow r then {r with well_type := .PRODUCTION}
  else if hasInjRow r then {r with well_type := .INJECTION}
  else r

/-- Chronological (year, month) order used to sort one well's records. -/
def chronoLeB (a b : MRow) : Bool :=
  decide (a.year < b.year) || (decide (a.year = b.year) && decide (a.month ≤ b.month))

/-- Lookup in the historical-types dictionary
(`well_name in historical_well_types` plus the access). -/
def histLookup (hist : List (String × Bool × Bool)) (w : String) : Option (Bool × Bool) :=
  (hist.find? fun q => decide (q.1 = w)).map Prod.snd

/-- The initial `last_known_type` of the per-well walk: `None` as soon as
the well has any in-data history, otherwise seeded from the
`historical_well_types` dictionary exactly as in the source. -/
def wellSeed (hist : List (String × Bool × Bool)) (well_data : List MRow) (w : String) :
    Option WellType :=
  let has_prod_history := well_data.any fun r =>
    decide (0 < r.oil_rate) || decide (0 < r.water_rate)
  let has_inj_history := well_data.any fun r => decide (0 < r.water_inj_rate)
  if has_prod_history || has_inj_history then none
  else
    match histLookup hist w with
    | some (hp, hi) =>
        if hp && !hi then some .PRODUCTION
        else if !hp && hi then some .INJECTION
        else if hp && hi then some .PRODUCTION
        else none
    | none => none

/-- The chronological walk of `_combine_and_classify_data`: carrying the
last known type, it records which `(year, month)` gap months receive which
carried type.  Months with data update the carried state and receive
nothing here (their label was already set by `classifyRow`). -/
def walkSteps : Option WellType → List MRow → List ((ℕ × ℕ) × WellType)
  | _, [] => []
  | last, r :: rs =>
    if hasProdRow r ∧ hasInjRow r then walkSteps (some .DUAL) rs
    else if hasProdRow r then walkSteps (some .PRODUCTION) rs
    else if hasInjRow r then walkSteps (some .INJECTION) rs
    else
      match last with
      | some t => ((r.year, r.month), t) :: walkSteps last rs
      | none => walkSteps none rs

/-- Writing one well's walk assignments back into the merged table
(the `merged.loc[mask, 'well_type'] = last_known_type` update). -/
def applyWalkRow (w : String) (assigns : List ((ℕ × ℕ) × WellType)) (r : MRow) : MRow :=
  if r.well_name = w then
    match assigns.find? fun q => decide (q.1 = (r.year, r.month)) with
    | some q => {r with well_type := q.2}
    | none => r
  else r

/-- The rows of one well in a merged table (`merged[merged['well_name'] == well_name]`). -/
def wellRows (m : List MRow) (w : String) : List MRow :=
  m.filter fun r => decide (r.well_name = w)

/-- `well_data.sort_values(['year', 'month'])` (a stable sort). -/
def sortChrono (l : List MRow) : List MRow :=
  List.insertionSort (fun a b => chronoLeB a b = true) l

/-- The walk assignments computed for one well from the current merged
table. -/
def assignsOf (hist : List (String × Bool × Bool)) (m : List MRow) (w : String) :
    List ((ℕ × ℕ) × WellType) :=
  walkSteps (wellSeed hist (sortChrono (wellRows m w)) w) (sortChrono (wellRows m w))

/-- One iteration of the per-well loop: sort the well's records
chronologically, seed the carried state, walk, write back. -/
def processWell (hist : List (String × Bool × Bool)) (merged : List MRow) (w : String) :
    List MRow :=
  merged.map (applyWalkRow w (assignsOf hist merged w))

/-- `merged.loc[no_current_data, 'well_name'].unique()`: the wells having at
least one month with neither production nor injection.  (The source keeps
first-occurrence order, `dedup` keeps last occurrences; the wells are walked
independently, so the processing order is immaterial.) -/
def wellsWithGap (merged : List MRow) : List String :=
  ((merged.filter fun r => decide (¬ hasProdRow r ∧ ¬ hasInjRow r)).map MRow.well_name).dedup

/-- The full CASE 4 carry-forward pass over the merged table. -/
def carryForwardStage (hist : List (String × Bool × Bool)) (merged : List MRow) : List MRow :=
  (wellsWithGap merged).foldl (processWell hist) merged

/-- Final well-level sort order: `['well_name', 'year', 'month']`. -/
def wellSortLeB (a b : MRow) : Bool :=
  decide (a.well_name < b.well_name) || (decide (a.well_name = b.well_name) && chronoLeB a b)

/-- `_combine_and_classify_data`, including its early returns for an empty
production or injection table. -/
def combine_and_classify_data (prodM : List ProdMonthly) (injM : List InjMonthly)
    (hist : List (String × Bool × Bool)) : List MRow :=
  if prodM = [] ∧ injM = [] then []
  else if prodM = [] then
    List.insertionSort (fun a b => wellSortLeB a b = true)
      (injM.map fun i => ⟨i.well_name, i.year, i.month, .INJECTION, 0, 0, i.water_inj_rate, 0⟩)
  else if injM = [] then
    List.insertionSort (fun a b => wellSortLeB a b = true)
      (prodM.map fun p => ⟨p.well_name, p.year, p.month, .PRODUCTION, p.oil_rate, p.water_rate, 0, 0⟩)
  else
    List.insertionSort (fun a b => wellSortLeB a b = true)
      (carryForwardStage hist ((mergeOuterWell prodM injM).map classifyRow))

/-- The combined, classified well-level table before DUAL resolution
(lines 47-56 of the source composed together). -/
def combinedMonthly (ds : DataStore) : List MRow :=
  combine_and_classify_data (process_production_data ds) (process_injection_data ds)
    (calculate_historical_well_types (process_production_data ds) (process_injection_data ds))

/-- The post-walk DUAL resolution of `calculate_monthly_well_types`:
`PRODUCTION` if `oil_rate + water_rate >= water_inj_rate` else `INJECTION`. -/
def resolveDual (r : MRow) : MRow :=
  if r.well_type = .DUAL then
    {r with well_type :=
      if r.oil_rate + r.water_rate ≥ r.water_inj_rate then .PRODUCTION else .INJECTION}
  else r

/-- `calculate_monthly_well_types`. -/
def calculate_monthly_well_types (ds : DataStore) : List MRow :=
  (combinedMonthly ds).map resolveDual

/-- A row of the completion-level monthly production table. -/
structure CompRow where
  completion_name : String
  well_name : String
  reservoir : String
  year : ℕ
  month : ℕ
  oil_rate : ℚ
  water_rate : ℚ
deriving DecidableEq, Repr

/-- A row of the completion-level monthly injection table. -/
structure CompInjRow where
  completion_name : String
  well_name : String
  reservoir : String
  year : ℕ
  month : ℕ
  water_inj_rate : ℚ
deriving DecidableEq, Repr

/-- A row of the completion-status output table of
`_combine_completion_data` (`is_active` is the 0/1 integer flag). -/
structure CompStatus where
  well_name : String
  completion_name : String
  reservoir : String
  year : ℕ
  month : ℕ
  is_active : ℕ
  well_type : WellType
  oil_rate : ℚ
  water_rate : ℚ
  water_inj_rate : ℚ
deriving DecidableEq, Repr

/-- The fixed chunk size used by the completion-level pipeline. -/
def chunk_size : ℕ := 10000

/-- Fuel-driven helper for `chunksOf` (structural recursion so the kernel
can evaluate it). -/
def chunksOfAux {α : Type} (k : ℕ) : ℕ → List α → List (List α)
  | _, [] => []
  | 0, _ :: _ => []
  | fuel + 1, l => l.take k :: chunksOfAux k fuel (l.drop k)

/-- Python slicing into fixed-size chunks:
`[l[i:i+k] for i in range(0, len(l), k)]`. -/
def chunksOf {α : Type} (k : ℕ) (l : List α) : List (List α) :=
  if k = 0 then [] else chunksOfAux k l.length l

/-- Ascending lexicographic order on completion-level group keys
`(completion_name, well_name, reservoir, year, month)`. -/
def ckeyLeB (a b : String × String × String × ℕ × ℕ) : Bool :=
  decide (a.1 < b.1) || (decide (a.1 = b.1) &&
    (decide (a.2.1 < b.2.1) || (decide (a.2.1 = b.2.1) &&
      (decide (a.2.2.1 < b.2.2.1) || (decide (a.2.2.1 = b.2.2.1) &&
        (decide (a.2.2.2.1 < b.2.2.2.1) || (decide (a.2.2.2.1 = b.2.2.2.1) &&
          decide (a.2.2.2.2 ≤ b.2.2.2.2))))))))

/-- Row-wise part of `_process_completion_production_data`: well mapping,
reservoir mapping (defaulting to the sentinel "UNKNOWN"), day rates. -/
def mapCompProdRow (wtc : List (String × List String)) (ctr : List (String × String))
    (r : ProdRow) : Option CompRow :=
  match completionToWell wtc r.comp_s_name with
  | none => none
  | some w =>
      some ⟨r.comp_s_name, w, completionToReservoir ctr r.comp_s_name,
        r.prod_year, r.prod_month,
        r.vo_oil_prod / (daysInMonth r.prod_year r.prod_month : ℚ),
        r.vo_wat_prod / (daysInMonth r.prod_year r.prod_month : ℚ)⟩

/-- Per-chunk grouping of the completion-level production pipeline. -/
def groupCompProd (l : List CompRow) : List CompRow :=
  groupBySum ckeyLeB (fun r => (r.completion_name, r.well_name, r.reservoir, r.year, r.month))
    (fun k g => ⟨k.1, k.2.1, k.2.2.1, k.2.2.2.1, k.2.2.2.2,
      ((g.map CompRow.oil_rate).sum), ((g.map CompRow.water_rate).sum)⟩) l

/-- `_process_completion_production_data`: rates are computed row-wise, the
table is cut into fixed-size chunks, each chunk is grouped separately and
the grouped chunks are concatenated without re-aggregation. -/
def process_completion_production_data (ds : DataStore) : List CompRow :=
  if ds.production_data = [] then []
  else
    let rows := ds.production_data.filterMap
      (mapCompProdRow ds.well_to_completions ds.completion_to_reservoir)
    if rows = [] then []
    else (chunksOf chunk_size rows).flatMap groupCompProd

/-- The same aggregation run with a single chunk covering all rows: the
comparison pipeline named by the chunk-invariance property of the spec. -/
def process_completion_production_data_single_chunk (ds : DataStore) : List CompRow :=
  if ds.production_data = [] then []
  else
    let rows := ds.production_data.filterMap
      (mapCompProdRow ds.well_to_completions ds.completion_to_reservoir)
    if rows = [] then []
    else ([rows] : List (List CompRow)).flatMap groupCompProd

/-- Row-wise part of `_process_completion_injection_data`. -/
def mapCompInjRow (wtc : List (String × List String)) (ctr : List (String × String))
    (r : InjRow) : Option CompInjRow :=
  match completionToWell wtc r.completion_legal_name with
  | none => none
  | some w =>
      some ⟨r.completion_legal_name, w, completionToReservoir ctr r.completion_legal_name,
        r.inj_year, r.inj_month,
        r.water_inj_calday / (daysInMonth r.inj_year r.inj_month : ℚ)⟩

/-- Per-chunk grouping of the completion-level injection pipeline. -/
def groupCompInj (l : List CompInjRow) : List CompInjRow :=
  groupBySum ckeyLeB (fun r => (r.completion_name, r.well_name, r.reservoir, r.year, r.month))
    (fun k g => ⟨k.1, k.2.1, k.2.2.1, k.2.2.2.1, k.2.2.2.2,
      ((g.map CompInjRow.water_inj_rate).sum)⟩) l

/-- `_process_completion_injection_data`. -/
def process_completion_injection_data (ds : DataStore) : List CompInjRow :=
  if ds.injection_data = [] then []
  else
    let rows := ds.injection_data.filterMap
      (mapCompInjRow ds.well_to_completions ds.completion_to_reservoir)
    if rows = [] then []
    else (chunksOf chunk_size rows).flatMap groupCompInj

/-- Join condition of the completion-level outer merge (all five keys). -/
def compKeyMatches (p : CompRow) (i : CompInjRow) : Bool :=
  decide (i.completion_name = p.completion_name) && decide (i.well_name = p.well_name) &&
  decide (i.reservoir = p.reservoir) && decide (i.year = p.year) && decide (i.month = p.month)

/-- A completion production row without an injection match. -/
def prodOnlyCRow (p : CompRow) : CompStatus :=
  ⟨p.well_name, p.completion_name, p.reservoir, p.year, p.month, 0, .UNKNOWN,
    p.oil_rate, p.water_rate, 0⟩

/-- A completion production row joined with a matching injection row. -/
def joinedCRow (p : CompRow) (i : CompInjRow) : CompStatus :=
  ⟨p.well_name, p.completion_name, p.reservoir, p.year, p.month, 0, .UNKNOWN,
    p.oil_rate, p.water_rate, i.water_inj_rate⟩

/-- A completion injection row without a production match. -/
def injOnlyCRow (i : CompInjRow) : CompStatus :=
  ⟨i.well_name, i.completion_name, i.reservoir, i.year, i.month, 0, .UNKNOWN,
    0, 0, i.water_inj_rate⟩

/-- Outer merge of one production chunk with the injection table, with
`fillna(0)` applied; `well_type` starts `UNKNOWN`, `is_active` at 0. -/
def mergeOuterComp (prodM : List CompRow) (injM : List CompInjRow) : List CompStatus :=
  (prodM.flatMap fun p =>
    if injM.filter (compKeyMatches p) = [] then [prodOnlyCRow p]
    else (injM.filter (compKeyMatches p)).map (joinedCRow p))
  ++ ((injM.filter fun i => !(prodM.any fun p => compKeyMatches p i)).map injOnlyCRow)

/-- The chunked merge of `_combine_completion_data`: each chunk of the
production table is outer-merged with the *entire* injection table and the
results are concatenated. -/
def completionMergedChunks (prodM : List CompRow) (injM : List CompInjRow) : List CompStatus :=
  (chunksOf chunk_size prodM).flatMap fun ch => mergeOuterComp ch injM

/-- `has_prod` for one completion-status row. -/
def hasProdComp (r : CompStatus) : Prop := 0 < r.oil_rate ∨ 0 < r.water_rate

/-- `has_inj` for one completion-status row. -/
def hasInjComp (r : CompStatus) : Prop := 0 < r.water_inj_rate

instance (r : CompStatus) : Decidable (hasProdComp r) := by unfold hasProdComp; infer_instance

instance (r : CompStatus) : Decidable (hasInjComp r) := by unfold hasInjComp; infer_instance

/-- The vectorised completion classification (lines 730-733): rows with
neither production nor injection keep the `UNKNOWN` default. -/
def classifyCompRow (r : CompStatus) : CompStatus :=
  if hasProdComp r ∧ ¬ hasInjComp r then {r with well_type := .PRODUCTION}
  else if ¬ hasProdComp r ∧ hasInjComp r then {r with well_type := .INJECTION}
  else if hasProdComp r ∧ hasInjComp r then {r with well_type := .DUAL}
  else r

/-- The completion-level table after merging and classification, before
DUAL resolution: the pre-resolution mode of each completion month. -/
def completionClassified (prodM : List CompRow) (injM : List CompInjRow) : List CompStatus :=
  (completionMergedChunks prodM injM).map classifyCompRow

/-- Row-wise DUAL reclassification (lines 735-748). -/
def resolveCompDual (r : CompStatus) : CompStatus :=
  if r.well_type = .DUAL then
    {r with well_type :=
      if r.oil_rate + r.water_rate ≥ r.water_inj_rate then .PRODUCTION else .INJECTION}
  else r

/-- `is_active = (has_prod | has_inj).astype(int)` (line 751); the rates are
untouched by the DUAL reclassification, so computing the masks before or
after it is identical. -/
def setActive (r : CompStatus) : CompStatus :=
  {r with is_active := if hasProdComp r ∨ hasInjComp r then 1 else 0}

/-- Completion-level output sort order:
`['well_name', 'completion_name', 'year', 'month']`. -/
def compSortLeB (a b : CompStatus) : Bool :=
  decide (a.well_name < b.well_name) || (decide (a.well_name = b.well_name) &&
    (decide (a.completion_name < b.completion_name) || (decide (a.completion_name = b.completion_name) &&
      (decide (a.year < b.year) || (decide (a.year = b.year) && decide (a.month ≤ b.month))))))

/-- `_combine_completion_data`, including its early returns and the final
chunk-by-chunk sort (each chunk is sorted separately and concatenated). -/
def combine_completion_data (prodM : List CompRow) (injM : List CompInjRow) : List CompStatus :=
  if prodM = [] ∧ injM = [] then []
  else if prodM = [] then
    List.insertionSort (fun a b => compSortLeB a b = true)
      (injM.map fun i => ⟨i.well_name, i.completion_name, i.reservoir, i.year, i.month,
        (if 0 < i.water_inj_rate then 1 else 0), .INJECTION, 0, 0, i.water_inj_rate⟩)
  else if injM = [] then
    List.insertionSort (fun a b => compSortLeB a b = true)
      (prodM.map fun p => ⟨p.well_name, p.completion_name, p.reservoir, p.year, p.month,
        (if 0 < p.oil_rate ∨ 0 < p.water_rate then 1 else 0), .PRODUCTION,
        p.oil_rate, p.water_rate, 0⟩)
  else
    (chunksOf chunk_size
        (((completionClassified prodM injM).map resolveCompDual).map setActive)).flatMap
      (List.insertionSort (fun a b => compSortLeB a b = true))

/-- `calculate_completion_status` (the progress-callback emissions carry no
data and are not modelled). -/
def calculate_completion_status (ds : DataStore) : List CompStatus :=
  combine_completion_data (process_completion_production_data ds)
    (process_completion_injection_data ds)

/-! ### Specification-side helper notions

These express the spec's vocabulary (observed mode of a month, chronological
precedence, per-well rate totals) independently of the walk that the
pipeline itself performs; the claims are stated with them. -/

/-- The operating mode a month's own rates witness, per the spec's
transition table. -/
def observedMode (oil water inj : ℚ) : WellType :=
  if (0 < oil ∨ 0 < water) ∧ 0 < inj then .DUAL
  else if 0 < oil ∨ 0 < water then .PRODUCTION
  else if 0 < inj then .INJECTION
  else .UNKNOWN

/-- The (year, month) stamp of a merged row. -/
def MRow.ym (r : MRow) : ℕ × ℕ := (r.year, r.month)

/-- The merge key of a well-level row. -/
def MRow.mkey (r : MRow) : String × ℕ × ℕ := (r.well_name, r.year, r.month)

/-- Everything of a well-level row except its `well_type` label. -/
def MRow.core (r : MRow) : String × ℕ × ℕ × ℚ × ℚ × ℚ × ℕ :=
  (r.well_name, r.year, r.month, r.oil_rate, r.water_rate, r.water_inj_rate,
    r.has_dual_function)

/-- The group key of a completion-level production row. -/
def CompRow.ckey (p : CompRow) : String × String × String × ℕ × ℕ :=
  (p.completion_name, p.well_name, p.reservoir, p.year, p.month)

/-- The group key of a completion-level injection row. -/
def CompInjRow.ckey (i : CompInjRow) : String × String × String × ℕ × ℕ :=
  (i.completion_name, i.well_name, i.reservoir, i.year, i.month)

/-- The group key of a well-level production row. -/
def ProdMonthly.pkey (p : ProdMonthly) : String × ℕ × ℕ := (p.well_name, p.year, p.month)

/-- The group key of a well-level injection row. -/
def InjMonthly.ikey (i : InjMonthly) : String × ℕ × ℕ := (i.well_name, i.year, i.month)

/-- Strict chronological precedence on (year, month). -/
def ymLt (a b : ℕ × ℕ) : Prop := a.1 < b.1 ∨ (a.1 = b.1 ∧ a.2 < b.2)

/-- Chronological order (allowing equality) on (year, month). -/
def ymLe (a b : ℕ × ℕ) : Prop := a.1 < b.1 ∨ (a.1 = b.1 ∧ a.2 ≤ b.2)

instance (a b : ℕ × ℕ) : Decidable (ymLt a b) := by unfold ymLt; infer_instance

instance (a b : ℕ × ℕ) : Decidable (ymLe a b) := by unfold ymLe; infer_instance

/-- The chronologically last row before `x` carrying observed data, within
a chronologically sorted row list: the spec's "nearest preceding month with
observed data". -/
def lastObserved (L : List MRow) (x : ℕ × ℕ) : Option MRow :=
  (L.filter fun s => decide ((hasProdRow s ∨ hasInjRow s) ∧ ymLt s.ym x)).getLast?

instance : IsTotal MRow fun a b => chronoLeB a b = true := by
  constructor
  intro a b
  unfold chronoLeB
  simp only [Bool.or_eq_true, Bool.and_eq_true, decide_eq_true_eq]
  omega

instance : IsTrans MRow fun a b => chronoLeB a b = true := by
  constructor
  intro a b c
  unfold chronoLeB
  simp only [Bool.or_eq_true, Bool.and_eq_true, decide_eq_true_eq]
  omega

/-- Well-level oil rate recorded for `(w, y, m)` (summing the matching
rows; the well-level table has at most one). -/
def wellOilRateAt (out : List MRow) (w : String) (y m : ℕ) : ℚ :=
  ((out.filter fun r => decide (r.well_name = w ∧ r.year = y ∧ r.month = m)).map
    MRow.oil_rate).sum

/-- Well-level water rate recorded for `(w, y, m)`. -/
def wellWaterRateAt (out : List MRow) (w : String) (y m : ℕ) : ℚ :=
  ((out.filter fun r => decide (r.well_name = w ∧ r.year = y ∧ r.month = m)).map
    MRow.water_rate).sum

/-- Well-level injection rate recorded for `(w, y, m)`. -/
def wellInjRateAt (out : List MRow) (w : String) (y m : ℕ) : ℚ :=
  ((out.filter fun r => decide (r.well_name = w ∧ r.year = y ∧ r.month = m)).map
    MRow.water_inj_rate).sum

/-- Sum of completion-level oil rates over all completions of well `w` in
month `(y, m)`. -/
def compOilRateSum (out : List CompStatus) (w : String) (y m : ℕ) : ℚ :=
  ((out.filter fun r => decide (r.well_name = w ∧ r.year = y ∧ r.month = m)).map
    CompStatus.oil_rate).sum

/-- Sum of completion-level water rates over all completions of well `w`. -/
def compWaterRateSum (out : List CompStatus) (w : String) (y m : ℕ) : ℚ :=
  ((out.filter fun r => decide (r.well_name = w ∧ r.year = y ∧ r.month = m)).map
    CompStatus.water_rate).sum

/-- Sum of completion-level injection rates over all completions of `w`. -/
def compInjRateSum (out : List CompStatus) (w : String) (y m : ℕ) : ℚ :=
  ((out.filter fun r => decide (r.well_name = w ∧ r.year = y ∧ r.month = m)).map
    CompStatus.water_inj_rate).sum

/-! ### Concrete inputs used by counterexamples and witnesses -/

/-- Well W (completion C) with a leading empty month, production in March
and injection in May 2020. -/
def dsLeadGap : DataStore :=
  ⟨[⟨"C", 2020, 1, 0, 0⟩, ⟨"C", 2020, 3, 31, 0⟩], [⟨"C", 2020, 5, 31⟩], [("W", ["C"])], []⟩

/-- One month producing 155 bbl oil / 93 bbl water and injecting 124 bbl
in January 2021 (31 days): rates 5, 3 and 4. -/
def dsDualProd : DataStore :=
  ⟨[⟨"C", 2021, 1, 155, 93⟩], [⟨"C", 2021, 1, 124⟩], [("W", ["C"])], []⟩

/-- One month producing 31 bbl oil and injecting 310 bbl in January 2021:
rates 1, 0 and 10. -/
def dsDualInj : DataStore :=
  ⟨[⟨"C", 2021, 1, 31, 0⟩], [⟨"C", 2021, 1, 310⟩], [("W", ["C"])], []⟩

/-- Well W (completion C) produces in January 2020 and has an empty reading
in February; well V (completion K) injects in January. -/
def dsGapAfterProd : DataStore :=
  ⟨[⟨"C", 2020, 1, 31, 0⟩, ⟨"C", 2020, 2, 0, 0⟩], [⟨"K", 2020, 1, 29⟩],
    [("W", ["C"]), ("V", ["K"])], []⟩

/-- Production-only input: well W produces in January 2020 and has an empty
reading in February; the injection table is empty. -/
def dsInjEmpty : DataStore :=
  ⟨[⟨"C", 2020, 1, 31, 0⟩, ⟨"C", 2020, 2, 0, 0⟩], [], [("W", ["C"])], []⟩

/-- Injection-only input: the production table is empty. -/
def dsProdEmpty : DataStore :=
  ⟨[], [⟨"C", 2020, 1, 31⟩], [("W", ["C"])], []⟩

/-- An input with a reading whose completion "Z" has no well mapping. -/
def dsUnmappable : DataStore :=
  ⟨[⟨"C", 2020, 1, 31, 0⟩, ⟨"Z", 2020, 1, 62, 0⟩], [⟨"Z", 2020, 1, 31⟩], [("W", ["C"])], []⟩

/-- Production reading `i` of dsTwoChunks: 31 bbl oil for completion C in
January of year `i`. -/
def prTwo (i : ℕ) : ProdRow := ⟨"C", i, 1, 31, 0⟩

/-- 10001 production readings of well W / completion C spread over distinct
years, plus one injection reading of well V / completion K: large enough
that the completion-level pipeline splits the production table into two
chunks. -/
def dsTwoChunks : DataStore :=
  ⟨(List.range 10001).map prTwo, [⟨"K", 2020, 1, 31⟩],
    [("W", ["C"]), ("V", ["K"])], []⟩

/-- 10001 identical production readings for one completion and month: one
(completion, year, month) group spanning a chunk boundary. -/
def dsOneGroup : DataStore :=
  ⟨List.replicate 10001 ⟨"C", 2020, 1, 31, 0⟩, [], [("W", ["C"])], []⟩

/-- The completion-level monthly row produced from reading `i` of
dsTwoChunks. -/
def crTwo (i : ℕ) : CompRow :=
  ⟨"C", "W", "UNKNOWN", i, 1, 31 / ((daysInMonth i 1 : ℕ) : ℚ),
    0 / ((daysInMonth i 1 : ℕ) : ℚ)⟩

/-- The well-level monthly row produced from reading `i` of dsTwoChunks. -/
def pmTwo (i : ℕ) : ProdMonthly :=
  ⟨"W", i, 1, 31 / ((daysInMonth i 1 : ℕ) : ℚ), 0 / ((daysInMonth i 1 : ℕ) : ℚ)⟩

/-! ### General list lemmas -/

open List

theorem sum_map_div {α : Type} (l : List α) (f : α → ℚ) (d : ℚ) :
    (l.map fun x => f x / d).sum = (l.map f).sum / d := by
  induction l with
  | nil => simp
  | cons x xs ih => simp [ih, add_div]

theorem sum_nonpos_of_forall (l : List ℚ) (h : ∀ x ∈ l, x ≤ 0) : l.sum ≤ 0 := by
  induction l with
  | nil => simp
  | cons x xs ih =>
    have hx := h x (List.mem_cons_self x xs)
    have hxs := ih fun y hy => h y (List.mem_cons_of_mem x hy)
    simpa using add_nonpos hx hxs

theorem flatMap_singleton_eq_map {α β : Type} (l : List α) (f : α → β) :
    (l.flatMap fun x => [f x]) = l.map f := by
  induction l with
  | nil => rfl
  | cons x xs ih => simp [ih]

theorem chunksOfAux_eq {α : Type} (k : ℕ) (hk : k ≠ 0) :
    ∀ (fuel : ℕ) (l : List α), l.length ≤ fuel → chunksOfAux k fuel l = chunksOf k l := by
  intro fuel
  induction fuel using Nat.strong_induction_on with
  | _ fuel ih =>
    intro l hl
    match fuel, l with
    | fuel, [] =>
      cases fuel <;> simp [chunksOfAux, chunksOf, hk]
    | 0, x :: xs => simp at hl
    | fuel + 1, x :: xs =>
      have hdrop : ((x :: xs).drop k).length ≤ xs.length := by
        simp only [List.length_drop, List.length_cons]
        omega
      have hfuel : xs.length ≤ fuel := by simpa using hl
      rw [chunksOf, if_neg hk]
      show chunksOfAux k (fuel + 1) (x :: xs) = chunksOfAux k (x :: xs).length (x :: xs)
      rw [List.length_cons]
      show (x :: xs).take k :: chunksOfAux k fuel ((x :: xs).drop k)
        = (x :: xs).take k :: chunksOfAux k xs.length ((x :: xs).drop k)
      rw [ih fuel (Nat.lt_succ_self fuel) _ (le_trans hdrop hfuel),
        ih xs.length (Nat.lt_succ_of_le hfuel) _ hdrop]

theorem chunksOf_nil {α : Type} (k : ℕ) : chunksOf k ([] : List α) = [] := by
  by_cases hk : k = 0 <;> simp [chunksOf, chunksOfAux, hk]

theorem chunksOf_cons {α : Type} (k : ℕ) (hk : k ≠ 0) (l : List α) (hl : l ≠ []) :
    chunksOf k l = l.take k :: chunksOf k (l.drop k) := by
  obtain ⟨x, xs, rfl⟩ := List.exists_cons_of_ne_nil hl
  rw [chunksOf, if_neg hk, List.length_cons]
  show (x :: xs).take k :: chunksOfAux k xs.length ((x :: xs).drop k) = _
  rw [chunksOfAux_eq k hk xs.length _ (by simp only [List.length_drop, List.length_cons]; omega)]

theorem chunksOf_eq_single {α : Type} (k : ℕ) (hk : k ≠ 0) (l : List α) (hl : l ≠ [])
    (hlen : l.length ≤ k) : chunksOf k l = [l] := by
  rw [chunksOf_cons k hk l hl, List.take_of_length_le hlen, List.drop_eq_nil_of_le hlen,
    chunksOf_nil]

theorem chunksOf_flatMap_perm_aux {α : Type} (k : ℕ) (hk : k ≠ 0) (f : List α → List α)
    (hf : ∀ c, f c ~ c) :
    ∀ (n : ℕ) (l : List α), l.length ≤ n → (chunksOf k l).flatMap f ~ l := by
  intro n
  induction n with
  | zero =>
    intro l h
    have : l = [] := List.eq_nil_of_length_eq_zero (Nat.le_zero.mp h)
    subst this
    simp [chunksOf_nil]
  | succ n ih =>
    intro l h
    by_cases hl : l = []
    · subst hl; simp [chunksOf_nil]
    · rw [chunksOf_cons k hk l hl, List.flatMap_cons]
      have hlen : (l.drop k).length ≤ n := by
        have : l.length ≠ 0 := fun hz => hl (List.eq_nil_of_length_eq_zero hz)
        simp only [List.length_drop]
        omega
      calc f (l.take k) ++ (chunksOf k (l.drop k)).flatMap f
          ~ l.take k ++ l.drop k := List.Perm.append (hf _) (ih _ hlen)
        _ = l := List.take_append_drop k l

/-- Cutting a list into chunks and permuting each chunk permutes the list. -/
theorem chunksOf_flatMap_perm {α : Type} (k : ℕ) (hk : k ≠ 0) (f : List α → List α)
    (hf : ∀ c, f c ~ c) (l : List α) : (chunksOf k l).flatMap f ~ l :=
  chunksOf_flatMap_perm_aux k hk f hf l.length l le_rfl

theorem groupBySum_perm {α K R : Type} [DecidableEq K] (leB : K → K → Bool) (key : α → K)
    (build : K → List α → R) (l : List α) :
    groupBySum leB key build l
      ~ (l.map key).dedup.map fun k => build k (l.filter fun x => decide (key x = k)) :=
  (List.perm_insertionSort _ _).map _

theorem mem_groupBySum_iff {α K R : Type} [DecidableEq K] {leB : K → K → Bool} {key : α → K}
    {build : K → List α → R} {l : List α} {r : R} :
    r ∈ groupBySum leB key build l
      ↔ ∃ k, k ∈ l.map key ∧ r = build k (l.filter fun x => decide (key x = k)) := by
  rw [(groupBySum_perm leB key build l).mem_iff, List.mem_map]
  constructor
  · rintro ⟨k, hk, rfl⟩
    exact ⟨k, List.mem_dedup.mp hk, rfl⟩
  · rintro ⟨k, hk, rfl⟩
    exact ⟨k, List.mem_dedup.mpr hk, rfl⟩

theorem groupBySum_keys {α K R : Type} [DecidableEq K] (leB : K → K → Bool) (key : α → K)
    (build : K → List α → R) (l : List α) (keyOf : R → K)
    (hb : ∀ k g, keyOf (build k g) = k) :
    (groupBySum leB key build l).map keyOf
      = List.insertionSort (fun a b => leB a b = true) (l.map key).dedup := by
  unfold groupBySum
  rw [List.map_map]
  exact (List.map_congr_left fun k _ => hb k _).trans (List.map_id _)

theorem groupBySum_keys_nodup {α K R : Type} [DecidableEq K] (leB : K → K → Bool) (key : α → K)
    (build : K → List α → R) (l : List α) (keyOf : R → K)
    (hb : ∀ k g, keyOf (build k g) = k) :
    ((groupBySum leB key build l).map keyOf).Nodup := by
  rw [groupBySum_keys leB key build l keyOf hb]
  exact (List.perm_insertionSort _ _).nodup_iff.mpr (List.nodup_dedup _)

theorem sum_filter_or_disjoint {α : Type} (p q : α → Prop) [DecidablePred p] [DecidablePred q]
    (hdisj : ∀ x, p x → q x → False) (f : α → ℚ) (l : List α) :
    ((l.filter fun x => decide (p x ∨ q x)).map f).sum
      = ((l.filter fun x => decide (p x)).map f).sum
        + ((l.filter fun x => decide (q x)).map f).sum := by
  induction l with
  | nil => simp
  | cons x xs ih =>
    by_cases hp : p x
    · have hq : ¬ q x := fun h => hdisj x hp h
      simp [List.filter_cons, hp, hq] at ih ⊢
      rw [ih]; ring
    · by_cases hq : q x
      · simp [List.filter_cons, hp, hq] at ih ⊢
        rw [ih]; ring
      · simp [List.filter_cons, hp, hq] at ih ⊢
        exact ih

theorem sum_over_keys {α K : Type} [DecidableEq K] (key : α → K) (f : α → ℚ) (l : List α) :
    ∀ S : List K, S.Nodup →
      (S.map fun k => ((l.filter fun x => decide (key x = k)).map f).sum).sum
        = ((l.filter fun x => decide (key x ∈ S)).map f).sum := by
  intro S
  induction S with
  | nil => simp
  | cons k S ih =>
    intro h
    obtain ⟨hk, hnd⟩ := List.nodup_cons.mp h
    rw [List.map_cons, List.sum_cons, ih hnd]
    have hdisj : ∀ x, key x = k → key x ∈ S → False := fun x h1 h2 => hk (h1 ▸ h2)
    have hsum := sum_filter_or_disjoint (fun x => key x = k) (fun x => key x ∈ S) hdisj f l
    have hfeq : (l.filter fun x => decide (key x ∈ k :: S))
        = l.filter fun x => decide (key x = k ∨ key x ∈ S) := by
      apply List.filter_congr
      intro x _
      simp [List.mem_cons]
    rw [hfeq, hsum]

theorem filter_key_length_le_one {β K : Type} [DecidableEq K] (f : β → K) (l : List β)
    (h : (l.map f).Nodup) (k : K) : (l.filter fun x => decide (f x = k)).length ≤ 1 := by
  induction l with
  | nil => simp
  | cons x xs ih =>
    rw [List.map_cons, List.nodup_cons] at h
    obtain ⟨hx, hxs⟩ := h
    by_cases hfx : f x = k
    · have hnil : (xs.filter fun y => decide (f y = k)) = [] := by
        rw [List.filter_eq_nil_iff]
        intro a ha
        simp only [decide_eq_true_eq]
        intro hak
        exact hx (List.mem_map.mpr ⟨a, ha, by rw [hak, hfx]⟩)
      simp [List.filter_cons, hfx, hnil]
    · simp only [List.filter_cons, decide_eq_true_eq, hfx, if_false]
      exact ih hxs

theorem flatMap_eq_map_of_singleton {β γ : Type} (l : List β) (f : β → List γ) (g : β → γ)
    (h : ∀ x ∈ l, f x = [g x]) : l.flatMap f = l.map g := by
  induction l with
  | nil => rfl
  | cons x xs ih =>
    rw [List.flatMap_cons, h x (List.mem_cons_self x xs),
      ih fun y hy => h y (List.mem_cons_of_mem x hy), List.map_cons, List.singleton_append]

/-! ### Well-level merge and classification lemmas -/

theorem wellKeyMatches_iff {p : ProdMonthly} {i : InjMonthly} :
    wellKeyMatches p i = true ↔ i.ikey = p.pkey := by
  simp [wellKeyMatches, InjMonthly.ikey, ProdMonthly.pkey, Prod.ext_iff, and_assoc]

theorem mem_mergeOuterWell {P : List ProdMonthly} {I : List InjMonthly} {q : MRow} :
    q ∈ mergeOuterWell P I ↔
      (∃ p ∈ P, (I.filter (wellKeyMatches p) = [] ∧ q = prodOnlyMRow p) ∨
        ∃ i ∈ I, wellKeyMatches p i = true ∧ q = joinedMRow p i) ∨
      (∃ i ∈ I, (P.any fun p => wellKeyMatches p i) = false ∧ q = injOnlyMRow i) := by
  unfold mergeOuterWell
  rw [List.mem_append, List.mem_flatMap]
  constructor
  · rintro (⟨p, hp, hq⟩ | hq)
    · left
      refine ⟨p, hp, ?_⟩
      by_cases hf : I.filter (wellKeyMatches p) = []
      · rw [if_pos hf] at hq
        exact Or.inl ⟨hf, List.mem_singleton.mp hq⟩
      · rw [if_neg hf] at hq
        obtain ⟨i, hi, rfl⟩ := List.mem_map.mp hq
        obtain ⟨hiI, hm⟩ := List.mem_filter.mp hi
        exact Or.inr ⟨i, hiI, hm, rfl⟩
    · right
      obtain ⟨i, hi, rfl⟩ := List.mem_map.mp hq
      obtain ⟨hiI, hm⟩ := List.mem_filter.mp hi
      exact ⟨i, hiI, by simpa using hm, rfl⟩
  · rintro (⟨p, hp, (⟨hf, rfl⟩ | ⟨i, hi, hm, rfl⟩)⟩ | ⟨i, hi, hm, rfl⟩)
    · exact Or.inl ⟨p, hp, by rw [if_pos hf]; exact List.mem_singleton.mpr rfl⟩
    · have hif : i ∈ I.filter (wellKeyMatches p) := List.mem_filter.mpr ⟨hi, hm⟩
      have hne : I.filter (wellKeyMatches p) ≠ [] := List.ne_nil_of_mem hif
      exact Or.inl ⟨p, hp, by rw [if_neg hne]; exact List.mem_map.mpr ⟨i, hif, rfl⟩⟩
    · refine Or.inr (List.mem_map.mpr ⟨i, List.mem_filter.mpr ⟨hi, ?_⟩, rfl⟩)
      simp only [Bool.not_eq_true']
      exact hm

theorem mergeOuterWell_keys_nodup {P : List ProdMonthly} {I : List InjMonthly}
    (hP : (P.map ProdMonthly.pkey).Nodup) (hI : (I.map InjMonthly.ikey).Nodup) :
    ((mergeOuterWell P I).map MRow.mkey).Nodup := by
  unfold mergeOuterWell
  rw [List.map_append]
  have hleft : ((P.flatMap fun p =>
      if I.filter (wellKeyMatches p) = [] then [prodOnlyMRow p]
      else (I.filter (wellKeyMatches p)).map (joinedMRow p)).map MRow.mkey)
      = P.map ProdMonthly.pkey := by
    rw [List.map_flatMap]
    apply flatMap_eq_map_of_singleton
    intro p _
    by_cases hf : I.filter (wellKeyMatches p) = []
    · rw [if_pos hf]
      rfl
    · rw [if_neg hf]
      have hle := filter_key_length_le_one InjMonthly.ikey I hI p.pkey
      have hfeq : (I.filter fun i => decide (i.ikey = p.pkey)) = I.filter (wellKeyMatches p) := by
        apply List.filter_congr
        intro i _
        cases hb : wellKeyMatches p i
        · simp only [decide_eq_false_iff_not]
          intro h
          have := wellKeyMatches_iff.mpr h
          rw [hb] at this
          cases this
        · simp only [decide_eq_true_eq]
          exact wellKeyMatches_iff.mp hb
      rw [hfeq] at hle
      match hm : I.filter (wellKeyMatches p), hle, hf with
      | [], _, hf => exact absurd rfl (hm ▸ hf)
      | [i], _, _ => rfl
      | i :: j :: t, hle, _ => simp [hm] at hle
  rw [hleft, List.map_map]
  have hright : (MRow.mkey ∘ injOnlyMRow) = InjMonthly.ikey := rfl
  rw [hright]
  apply List.Nodup.append hP
  · exact hI.sublist ((List.filter_sublist I).map InjMonthly.ikey)
  · intro k hkP hkR
    obtain ⟨p, hp, rfl⟩ := List.mem_map.mp hkP
    obtain ⟨i, hi, hik⟩ := List.mem_map.mp hkR
    obtain ⟨hiI, hb⟩ := List.mem_filter.mp hi
    have : wellKeyMatches p i = true := wellKeyMatches_iff.mpr hik
    have : P.any (fun p => wellKeyMatches p i) = true := List.any_eq_true.mpr ⟨p, hp, this⟩
    simp [this] at hb

theorem classifyRow_fields (r : MRow) :
    (classifyRow r).well_name = r.well_name ∧ (classifyRow r).year = r.year ∧
    (classifyRow r).month = r.month ∧ (classifyRow r).oil_rate = r.oil_rate ∧
    (classifyRow r).water_rate = r.water_rate ∧
    (classifyRow r).water_inj_rate = r.water_inj_rate := by
  unfold classifyRow
  split_ifs <;> exact ⟨rfl, rfl, rfl, rfl, rfl, rfl⟩

theorem classifyRow_of_gap {r : MRow} (h1 : ¬ hasProdRow r) (h2 : ¬ hasInjRow r) :
    classifyRow r = r := by
  unfold classifyRow
  rw [if_neg (fun h => h1 h.1), if_neg h1, if_neg h2]

theorem classifyRow_well_type_obs {r : MRow} (h : hasProdRow r ∨ hasInjRow r) :
    (classifyRow r).well_type = observedMode r.oil_rate r.water_rate r.water_inj_rate := by
  unfold classifyRow observedMode hasProdRow hasInjRow
  unfold hasProdRow hasInjRow at h
  split_ifs <;> first | rfl | tauto

theorem applyWalkRow_fields (w : String) (A : List ((ℕ × ℕ) × WellType)) (r : MRow) :
    (applyWalkRow w A r).well_name = r.well_name ∧ (applyWalkRow w A r).year = r.year ∧
    (applyWalkRow w A r).month = r.month ∧ (applyWalkRow w A r).oil_rate = r.oil_rate ∧
    (applyWalkRow w A r).water_rate = r.water_rate ∧
    (applyWalkRow w A r).water_inj_rate = r.water_inj_rate ∧
    (applyWalkRow w A r).has_dual_function = r.has_dual_function := by
  unfold applyWalkRow
  split_ifs with h
  · cases hf : A.find? fun q => decide (q.1 = (r.year, r.month)) <;> simp [hf]
  · simp

theorem applyWalkRow_core (w : String) (A : List ((ℕ × ℕ) × WellType)) (r : MRow) :
    (applyWalkRow w A r).core = r.core := by
  obtain ⟨h1, h2, h3, h4, h5, h6, h7⟩ := applyWalkRow_fields w A r
  unfold MRow.core
  rw [h1, h2, h3, h4, h5, h6, h7]

theorem applyWalkRow_of_ne {w : String} {A : List ((ℕ × ℕ) × WellType)} {r : MRow}
    (h : r.well_name ≠ w) : applyWalkRow w A r = r := by
  unfold applyWalkRow
  rw [if_neg h]

theorem core_eq_iff {r s : MRow} : r.core = s.core ↔
    r.well_name = s.well_name ∧ r.year = s.year ∧ r.month = s.month ∧
    r.oil_rate = s.oil_rate ∧ r.water_rate = s.water_rate ∧
    r.water_inj_rate = s.water_inj_rate ∧ r.has_dual_function = s.has_dual_function := by
  unfold MRow.core
  simp [Prod.ext_iff]

theorem wellRows_processWell (hist : List (String × Bool × Bool)) (m : List MRow)
    (v w : String) :
    wellRows (processWell hist m v) w =
      if v = w then (wellRows m w).map (applyWalkRow w (assignsOf hist m w))
      else wellRows m w := by
  unfold processWell
  show (m.map (applyWalkRow v (assignsOf hist m v))).filter _ = _
  rw [List.filter_map]
  have hpred : ((fun r : MRow => decide (r.well_name = w)) ∘ applyWalkRow v (assignsOf hist m v))
      = fun r => decide (r.well_name = w) := by
    funext r
    simp [Function.comp, (applyWalkRow_fields v (assignsOf hist m v) r).1]
  rw [hpred]
  by_cases hvw : v = w
  · subst hvw
    rw [if_pos rfl]
    rfl
  · rw [if_neg hvw]
    show (wellRows m w).map _ = wellRows m w
    have : ∀ r ∈ wellRows m w, applyWalkRow v (assignsOf hist m v) r = r := by
      intro r hr
      have hname : r.well_name = w := by
        have := (List.mem_filter.mp hr).2
        simpa using this
      exact applyWalkRow_of_ne (by rw [hname]; exact fun h => hvw h.symm)
    rw [List.map_congr_left this]
    exact List.map_id _

theorem assignsOf_congr (hist : List (String × Bool × Bool)) {m m' : List MRow} (w : String)
    (h : wellRows m w = wellRows m' w) : assignsOf hist m w = assignsOf hist m' w := by
  unfold assignsOf
  rw [h]

theorem wellRows_foldl (hist : List (String × Bool × Bool)) (w : String) :
    ∀ ws : List String, ws.Nodup → ∀ m : List MRow,
      (w ∉ ws → wellRows (ws.foldl (processWell hist) m) w = wellRows m w) ∧
      (w ∈ ws → wellRows (ws.foldl (processWell hist) m) w
        = (wellRows m w).map (applyWalkRow w (assignsOf hist m w))) := by
  intro ws
  induction ws with
  | nil =>
    intro _ m
    exact ⟨fun _ => rfl, fun h => absurd h (List.not_mem_nil w)⟩
  | cons v ws ih =>
    intro hnd m
    obtain ⟨hv, hnd'⟩ := List.nodup_cons.mp hnd
    constructor
    · intro hw
      have hwv : w ≠ v := fun h => hw (h ▸ List.mem_cons_self v ws)
      have hws : w ∉ ws := fun h => hw (List.mem_cons_of_mem v h)
      rw [List.foldl_cons, (ih hnd' (processWell hist m v)).1 hws,
        wellRows_processWell, if_neg (fun h => hwv h.symm)]
    · intro hw
      by_cases hvw : v = w
      · subst hvw
        rw [List.foldl_cons, (ih hnd' (processWell hist m v)).1 hv,
          wellRows_processWell, if_pos rfl]
      · have hws : w ∈ ws := by
          rcases List.mem_cons.mp hw with h | h
          · exact absurd h.symm hvw
          · exact h
        have hrows : wellRows (processWell hist m v) w = wellRows m w := by
          rw [wellRows_processWell, if_neg hvw]
        rw [List.foldl_cons, (ih hnd' (processWell hist m v)).2 hws, hrows,
          assignsOf_congr hist w hrows]

theorem foldl_processWell_core (hist : List (String × Bool × Bool)) :
    ∀ (ws : List String) (m : List MRow),
      (ws.foldl (processWell hist) m).map MRow.core = m.map MRow.core := by
  intro ws
  induction ws with
  | nil => intro m; rfl
  | cons v ws ih =>
    intro m
    rw [List.foldl_cons, ih]
    unfold processWell
    rw [List.map_map]
    apply List.map_congr_left
    intro r _
    exact applyWalkRow_core v _ r

theorem exists_core_of_mem_foldl {hist : List (String × Bool × Bool)} {ws : List String}
    {m : List MRow} {r : MRow} (hr : r ∈ ws.foldl (processWell hist) m) :
    ∃ r₀ ∈ m, r₀.core = r.core := by
  have h1 : r.core ∈ (ws.foldl (processWell hist) m).map MRow.core :=
    List.mem_map_of_mem MRow.core hr
  rw [foldl_processWell_core] at h1
  obtain ⟨r₀, h, hcore⟩ := List.mem_map.mp h1
  exact ⟨r₀, h, hcore⟩

theorem mem_wellsWithGap {m : List MRow} {w : String} :
    w ∈ wellsWithGap m ↔ ∃ r ∈ m, r.well_name = w ∧ ¬ hasProdRow r ∧ ¬ hasInjRow r := by
  unfold wellsWithGap
  rw [List.mem_dedup, List.mem_map]
  constructor
  · rintro ⟨r, hr, rfl⟩
    obtain ⟨hrm, hgap⟩ := List.mem_filter.mp hr
    exact ⟨r, hrm, rfl, by simpa using hgap⟩
  · rintro ⟨r, hrm, rfl, hgap⟩
    exact ⟨r, List.mem_filter.mpr ⟨hrm, by simpa using hgap⟩, rfl⟩

/-! ### Chronological order and walk lemmas -/

theorem ymLe_refl (a : ℕ × ℕ) : ymLe a a := by unfold ymLe; omega

theorem ymLe_trans {a b c : ℕ × ℕ} (h1 : ymLe a b) (h2 : ymLe b c) : ymLe a c := by
  unfold ymLe at h1 h2 ⊢; omega

theorem ymLe_total (a b : ℕ × ℕ) : ymLe a b ∨ ymLe b a := by unfold ymLe; omega

theorem ymLt_of_ymLe_ne {a b : ℕ × ℕ} (h : ymLe a b) (hne : a ≠ b) : ymLt a b := by
  rcases a with ⟨a1, a2⟩
  rcases b with ⟨b1, b2⟩
  have hne2 : a1 ≠ b1 ∨ a2 ≠ b2 := by
    by_contra hc
    push_neg at hc
    exact hne (by rw [hc.1, hc.2])
  unfold ymLe at h
  unfold ymLt
  dsimp only at h ⊢
  omega

theorem not_ymLt_of_ymLe {a b : ℕ × ℕ} (h : ymLe a b) (hne : a ≠ b) : ¬ ymLt b a := by
  have := ymLt_of_ymLe_ne h hne
  unfold ymLt at this ⊢
  omega

theorem ymLe_of_ymLt {a b : ℕ × ℕ} (h : ymLt a b) : ymLe a b := by
  unfold ymLt at h; unfold ymLe; omega

theorem chronoLeB_iff {a b : MRow} : chronoLeB a b = true ↔ ymLe a.ym b.ym := by
  simp [chronoLeB, ymLe, MRow.ym]

theorem sortChrono_perm (l : List MRow) : sortChrono l ~ l :=
  List.perm_insertionSort _ _

theorem sortChrono_sorted (l : List MRow) :
    (sortChrono l).Pairwise fun a b => ymLe a.ym b.ym := by
  have h := List.sorted_insertionSort (fun a b : MRow => chronoLeB a b = true) l
  exact h.imp fun hab => chronoLeB_iff.mp hab

theorem walkSteps_ym_mem {L : List MRow} :
    ∀ {init : Option WellType} {e : (ℕ × ℕ) × WellType}, e ∈ walkSteps init L →
      ∃ r ∈ L, (¬ hasProdRow r ∧ ¬ hasInjRow r) ∧ e.1 = (r.year, r.month) := by
  induction L with
  | nil => intro init e h; cases h
  | cons c rest ih =>
    intro init e h
    unfold walkSteps at h
    split_ifs at h with h1 h2 h3
    · obtain ⟨r, hr, hgap, hym⟩ := ih h
      exact ⟨r, List.mem_cons_of_mem c hr, hgap, hym⟩
    · obtain ⟨r, hr, hgap, hym⟩ := ih h
      exact ⟨r, List.mem_cons_of_mem c hr, hgap, hym⟩
    · obtain ⟨r, hr, hgap, hym⟩ := ih h
      exact ⟨r, List.mem_cons_of_mem c hr, hgap, hym⟩
    · have hgapc : ¬ hasProdRow c ∧ ¬ hasInjRow c := ⟨h2, h3⟩
      match init, h with
      | some t, h =>
        rcases List.mem_cons.mp h with h | h
        · exact ⟨c, List.mem_cons_self c rest, hgapc, by rw [h]⟩
        · obtain ⟨r, hr, hgap, hym⟩ := ih h
          exact ⟨r, List.mem_cons_of_mem c hr, hgap, hym⟩
      | none, h =>
        obtain ⟨r, hr, hgap, hym⟩ := ih h
        exact ⟨r, List.mem_cons_of_mem c hr, hgap, hym⟩

theorem walkSteps_all_gap {t : WellType} :
    ∀ {L : List MRow}, (∀ r ∈ L, ¬ hasProdRow r ∧ ¬ hasInjRow r) →
      walkSteps (some t) L = L.map fun r => ((r.year, r.month), t) := by
  intro L
  induction L with
  | nil => intro _; rfl
  | cons c rest ih =>
    intro h
    obtain ⟨hcp, hci⟩ := h c (List.mem_cons_self c rest)
    unfold walkSteps
    rw [if_neg (fun hh => hcp hh.1), if_neg hcp, if_neg hci]
    rw [ih fun r hr => h r (List.mem_cons_of_mem c hr)]
    rfl

theorem find?_of_all_snd {A : List ((ℕ × ℕ) × WellType)} {t : WellType} {x : ℕ × ℕ}
    (hall : ∀ e ∈ A, e.2 = t) (hex : ∃ e ∈ A, e.1 = x) :
    A.find? (fun q => decide (q.1 = x)) = some (x, t) := by
  obtain ⟨e, he, hex⟩ := hex
  have hsome : (A.find? fun q => decide (q.1 = x)).isSome := by
    rw [List.find?_isSome]
    exact ⟨e, he, by simp [hex]⟩
  obtain ⟨e2, he2⟩ := Option.isSome_iff_exists.mp hsome
  have hmem := List.mem_of_find?_eq_some he2
  have hpred := List.find?_some he2
  have h1 : e2.1 = x := by simpa using hpred
  have h2 : e2.2 = t := hall e2 hmem
  rw [he2]
  rw [show e2 = (x, t) from Prod.ext h1 h2]

theorem pairwise_getLast_max {R : MRow → MRow → Prop} :
    ∀ {l : List MRow}, l.Pairwise R → ∀ {s : MRow}, l.getLast? = some s →
      ∀ τ ∈ l, τ = s ∨ R τ s := by
  intro l
  induction l with
  | nil => intro _ s h; cases h
  | cons x xs ih =>
    intro hp s hl τ hτ
    obtain ⟨hx, hxs⟩ := List.pairwise_cons.mp hp
    cases hxs0 : xs with
    | nil =>
      subst hxs0
      have : s = x := by
        rw [show ([x].getLast? : Option MRow) = some x from rfl] at hl
        exact (Option.some_inj.mp hl).symm
      rcases List.mem_singleton.mp hτ with rfl
      exact Or.inl this.symm
    | cons y ys =>
      subst hxs0
      rw [List.getLast?_cons_cons] at hl
      have hsmem : s ∈ y :: ys := List.mem_of_mem_getLast? (by rw [hl]; rfl)
      rcases List.mem_cons.mp hτ with rfl | hτ2
      · exact Or.inr (hx s hsmem)
      · exact ih hxs hl τ hτ2

theorem walkSteps_cons_obs {c : MRow} (h : hasProdRow c ∨ hasInjRow c)
    (init : Option WellType) (rest : List MRow) :
    walkSteps init (c :: rest)
      = walkSteps (some (observedMode c.oil_rate c.water_rate c.water_inj_rate)) rest := by
  by_cases h1 : hasProdRow c
  · by_cases h2 : hasInjRow c
    · have hm : observedMode c.oil_rate c.water_rate c.water_inj_rate = .DUAL := by
        unfold observedMode
        rw [if_pos (show (0 < c.oil_rate ∨ 0 < c.water_rate) ∧ 0 < c.water_inj_rate
          from ⟨h1, h2⟩)]
      rw [hm]
      simp only [walkSteps]
      rw [if_pos (show hasProdRow c ∧ hasInjRow c from ⟨h1, h2⟩)]
    · have hm : observedMode c.oil_rate c.water_rate c.water_inj_rate = .PRODUCTION := by
        unfold observedMode
        rw [if_neg (show ¬ ((0 < c.oil_rate ∨ 0 < c.water_rate) ∧ 0 < c.water_inj_rate)
            from fun hh => h2 hh.2),
          if_pos (show 0 < c.oil_rate ∨ 0 < c.water_rate from h1)]
      rw [hm]
      simp only [walkSteps]
      rw [if_neg (show ¬ (hasProdRow c ∧ hasInjRow c) from fun hh => h2 hh.2), if_pos h1]
  · by_cases h2 : hasInjRow c
    · have hm : observedMode c.oil_rate c.water_rate c.water_inj_rate = .INJECTION := by
        unfold observedMode
        rw [if_neg (show ¬ ((0 < c.oil_rate ∨ 0 < c.water_rate) ∧ 0 < c.water_inj_rate)
            from fun hh => h1 hh.1),
          if_neg (show ¬ (0 < c.oil_rate ∨ 0 < c.water_rate) from h1),
          if_pos (show 0 < c.water_inj_rate from h2)]
      rw [hm]
      simp only [walkSteps]
      rw [if_neg (show ¬ (hasProdRow c ∧ hasInjRow c) from fun hh => h1 hh.1), if_neg h1,
        if_pos h2]
    · rcases h with h | h
      · exact absurd h h1
      · exact absurd h h2

theorem walkSteps_cons_gap {c : MRow} (h1 : ¬ hasProdRow c) (h2 : ¬ hasInjRow c)
    (init : Option WellType) (rest : List MRow) :
    walkSteps init (c :: rest)
      = match init with
        | some t => ((c.year, c.month), t) :: walkSteps (some t) rest
        | none => walkSteps none rest := by
  simp only [walkSteps]
  rw [if_neg (show ¬ (hasProdRow c ∧ hasInjRow c) from fun hh => h1 hh.1), if_neg h1,
    if_neg h2]
  cases init <;> rfl

/-- The central walk lemma: on a chronologically sorted list of one well's
months with distinct (year, month) stamps, the carried type written for a
gap month is the observed mode of the nearest preceding observed month, or
the initial carried state when no observed month precedes it. -/
theorem walkSteps_find_gap :
    ∀ (L : List MRow) (init : Option WellType),
      L.Pairwise (fun a b => ymLe a.ym b.ym) →
      (L.map MRow.ym).Nodup →
      ∀ r ∈ L, ¬ hasProdRow r → ¬ hasInjRow r →
        ((walkSteps init L).find? fun q => decide (q.1 = r.ym)).map Prod.snd =
          (lastObserved L r.ym).elim init
            (fun s => some (observedMode s.oil_rate s.water_rate s.water_inj_rate)) := by
  intro L
  induction L with
  | nil => intro init _ _ r hr; cases hr
  | cons c rest ih =>
    intro init hsort hnodup r hr hrp hri
    obtain ⟨hcle, hsort'⟩ := List.pairwise_cons.mp hsort
    rw [List.map_cons, List.nodup_cons] at hnodup
    obtain ⟨hcym, hnodup'⟩ := hnodup
    by_cases hobs : hasProdRow c ∨ hasInjRow c
    · have hrrest : r ∈ rest := by
        rcases List.mem_cons.mp hr with rfl | h
        · cases hobs with
          | inl h => exact absurd h hrp
          | inr h => exact absurd h hri
        · exact h
      have hlt : ymLt c.ym r.ym := by
        apply ymLt_of_ymLe_ne (hcle r hrrest)
        intro h
        exact hcym (h ▸ List.mem_map_of_mem MRow.ym hrrest)
      have hstep : walkSteps init (c :: rest)
          = walkSteps (some (observedMode c.oil_rate c.water_rate c.water_inj_rate)) rest :=
        walkSteps_cons_obs hobs init rest
      rw [hstep, ih _ hsort' hnodup' r hrrest hrp hri]
      unfold lastObserved
      rw [List.filter_cons]
      have hpred : (decide ((hasProdRow c ∨ hasInjRow c) ∧ ymLt c.ym r.ym)) = true := by
        simp only [decide_eq_true_eq]
        exact ⟨hobs, hlt⟩
      rw [hpred, if_pos rfl]
      cases hfr : (rest.filter fun s =>
          decide ((hasProdRow s ∨ hasInjRow s) ∧ ymLt s.ym r.ym)) with
      | nil => rfl
      | cons x xs =>
        rw [List.getLast?_cons_cons]
        cases hgl : (x :: xs).getLast? with
        | none => exact absurd (List.getLast?_eq_none_iff.mp hgl) (List.cons_ne_nil x xs)
        | some s => rfl
    · have hcp : ¬ hasProdRow c := fun h => hobs (Or.inl h)
      have hci : ¬ hasInjRow c := fun h => hobs (Or.inr h)
      have hstep : walkSteps init (c :: rest)
          = match init with
            | some t => ((c.year, c.month), t) :: walkSteps (some t) rest
            | none => walkSteps none rest := walkSteps_cons_gap hcp hci init rest
      have hfc : ((c :: rest).filter fun s =>
          decide ((hasProdRow s ∨ hasInjRow s) ∧ ymLt s.ym r.ym))
          = rest.filter fun s => decide ((hasProdRow s ∨ hasInjRow s) ∧ ymLt s.ym r.ym) := by
        rw [List.filter_cons, if_neg]
        simp only [decide_eq_true_eq]
        exact fun h => hobs h.1
      rcases List.mem_cons.mp hr with rfl | hrrest
      · have hfnil : (rest.filter fun s =>
            decide ((hasProdRow s ∨ hasInjRow s) ∧ ymLt s.ym r.ym)) = [] := by
          rw [List.filter_eq_nil_iff]
          intro s hs
          simp only [decide_eq_true_eq, not_and]
          intro _
          apply not_ymLt_of_ymLe (hcle s hs)
          intro h
          exact hcym (h ▸ List.mem_map_of_mem MRow.ym hs)
        unfold lastObserved
        rw [hfc, hfnil]
        cases init with
        | some t =>
          rw [hstep]
          have : ((((r.year, r.month), t) :: walkSteps (some t) rest).find? fun q =>
              decide (q.1 = r.ym)) = some ((r.year, r.month), t) :=
            List.find?_cons_of_pos _ (by simp [MRow.ym])
          rw [this]
          rfl
        | none =>
          rw [hstep]
          have : ((walkSteps (none : Option WellType) rest).find? fun q =>
              decide (q.1 = r.ym)) = none := by
            rw [List.find?_eq_none]
            intro e he
            obtain ⟨s, hs, _, hym⟩ := walkSteps_ym_mem he
            simp only [decide_eq_true_eq]
            rw [hym]
            intro h
            exact hcym (show r.ym ∈ rest.map MRow.ym from h ▸ List.mem_map_of_mem MRow.ym hs)
          rw [this]
          rfl
      · have hrym : r.ym ≠ c.ym := by
          intro h
          exact hcym (h ▸ List.mem_map_of_mem MRow.ym hrrest)
        have hres : (lastObserved (c :: rest) r.ym).elim init
            (fun s => some (observedMode s.oil_rate s.water_rate s.water_inj_rate))
            = (lastObserved rest r.ym).elim init
              (fun s => some (observedMode s.oil_rate s.water_rate s.water_inj_rate)) := by
          unfold lastObserved
          rw [hfc]
        rw [hres]
        cases init with
        | some t =>
          rw [hstep]
          have hhd : (decide ((((c.year, c.month), t) : (ℕ × ℕ) × WellType).1 = r.ym)) = false := by
            simp only [decide_eq_false_iff_not]
            intro h
            exact hrym (by rw [← h]; rfl)
          rw [List.find?_cons_of_neg _ (by simp only [hhd]; exact fun h => Bool.false_ne_true h)]
          exact ih _ hsort' hnodup' r hrrest hrp hri
        | none =>
          rw [hstep]
          exact ih _ hsort' hnodup' r hrrest hrp hri

/-! ### Pipeline support lemmas -/

theorem process_production_keys_nodup (ds : DataStore) :
    ((process_production_data ds).map ProdMonthly.pkey).Nodup := by
  unfold process_production_data
  split_ifs
  · exact List.nodup_nil
  · exact groupBySum_keys_nodup _ _ _ _ _ fun k g => rfl

theorem process_injection_keys_nodup (ds : DataStore) :
    ((process_injection_data ds).map InjMonthly.ikey).Nodup := by
  unfold process_injection_data
  split_ifs
  · exact List.nodup_nil
  · exact groupBySum_keys_nodup _ _ _ _ _ fun k g => rfl

theorem mergeOuterWell_defaults {P : List ProdMonthly} {I : List InjMonthly} :
    ∀ q ∈ mergeOuterWell P I, q.well_type = .UNKNOWN ∧ q.has_dual_function = 0 := by
  intro q hq
  rcases mem_mergeOuterWell.mp hq with ⟨p, _, (⟨_, rfl⟩ | ⟨i, _, _, rfl⟩)⟩ | ⟨i, _, _, rfl⟩ <;>
    exact ⟨rfl, rfl⟩

theorem mergeOuterWell_covers_prod {P : List ProdMonthly} {I : List InjMonthly} :
    ∀ p ∈ P, ∃ q ∈ mergeOuterWell P I,
      q.well_name = p.well_name ∧ q.year = p.year ∧ q.month = p.month ∧
      q.oil_rate = p.oil_rate ∧ q.water_rate = p.water_rate := by
  intro p hp
  by_cases hf : I.filter (wellKeyMatches p) = []
  · exact ⟨prodOnlyMRow p, mem_mergeOuterWell.mpr (Or.inl ⟨p, hp, Or.inl ⟨hf, rfl⟩⟩),
      rfl, rfl, rfl, rfl, rfl⟩
  · obtain ⟨i, hi⟩ := List.exists_mem_of_ne_nil _ hf
    obtain ⟨hiI, hm⟩ := List.mem_filter.mp hi
    exact ⟨joinedMRow p i, mem_mergeOuterWell.mpr (Or.inl ⟨p, hp, Or.inr ⟨i, hiI, hm, rfl⟩⟩),
      rfl, rfl, rfl, rfl, rfl⟩

theorem mergeOuterWell_covers_inj {P : List ProdMonthly} {I : List InjMonthly} :
    ∀ i ∈ I, ∃ q ∈ mergeOuterWell P I,
      q.well_name = i.well_name ∧ q.water_inj_rate = i.water_inj_rate := by
  intro i hi
  by_cases hmat : (P.any fun p => wellKeyMatches p i) = true
  · obtain ⟨p, hp, hm⟩ := List.any_eq_true.mp hmat
    refine ⟨joinedMRow p i,
      mem_mergeOuterWell.mpr (Or.inl ⟨p, hp, Or.inr ⟨i, hi, hm, rfl⟩⟩), ?_, rfl⟩
    have hkey := wellKeyMatches_iff.mp hm
    have : i.well_name = p.well_name := by
      have := congrArg Prod.fst hkey
      simpa [InjMonthly.ikey, ProdMonthly.pkey] using this
    exact this.symm
  · have hfalse : (P.any fun p => wellKeyMatches p i) = false := by
      cases hb : P.any fun p => wellKeyMatches p i
      · rfl
      · exact absurd hb hmat
    exact ⟨injOnlyMRow i, mem_mergeOuterWell.mpr (Or.inr ⟨i, hi, hfalse, rfl⟩), rfl, rfl⟩

theorem classified_keys_nodup {P : List ProdMonthly} {I : List InjMonthly}
    (hP : (P.map ProdMonthly.pkey).Nodup) (hI : (I.map InjMonthly.ikey).Nodup) :
    (((mergeOuterWell P I).map classifyRow).map MRow.mkey).Nodup := by
  rw [List.map_map]
  have hcomp : (MRow.mkey ∘ classifyRow) = MRow.mkey := by
    funext r
    obtain ⟨h1, h2, h3, _, _, _⟩ := classifyRow_fields r
    show (classifyRow r).mkey = r.mkey
    unfold MRow.mkey
    rw [h1, h2, h3]
  rw [hcomp]
  exact mergeOuterWell_keys_nodup hP hI

theorem wellRows_ym_nodup {m : List MRow} (h : (m.map MRow.mkey).Nodup) (w : String) :
    ((wellRows m w).map MRow.ym).Nodup := by
  have hsub : ((wellRows m w).map MRow.mkey).Nodup :=
    h.sublist ((List.filter_sublist m).map MRow.mkey)
  have heq : (wellRows m w).map MRow.mkey
      = ((wellRows m w).map MRow.ym).map fun u => (w, u) := by
    rw [List.map_map]
    apply List.map_congr_left
    intro r hr
    have hname : r.well_name = w := by
      simpa using (List.mem_filter.mp hr).2
    show r.mkey = (w, r.ym)
    unfold MRow.mkey MRow.ym
    rw [hname]
  rw [heq] at hsub
  exact hsub.of_map

theorem mem_wellRows {m : List MRow} {w : String} {r : MRow} :
    r ∈ wellRows m w ↔ r ∈ m ∧ r.well_name = w := by
  unfold wellRows
  rw [List.mem_filter]
  simp

/-! ### Completion-level structural lemmas -/

theorem compKeyMatches_iff {p : CompRow} {i : CompInjRow} :
    compKeyMatches p i = true ↔ i.ckey = p.ckey := by
  simp [compKeyMatches, CompInjRow.ckey, CompRow.ckey, Prod.ext_iff, and_assoc]

theorem mem_mergeOuterComp {P : List CompRow} {I : List CompInjRow} {q : CompStatus} :
    q ∈ mergeOuterComp P I ↔
      (∃ p ∈ P, (I.filter (compKeyMatches p) = [] ∧ q = prodOnlyCRow p) ∨
        ∃ i ∈ I, compKeyMatches p i = true ∧ q = joinedCRow p i) ∨
      (∃ i ∈ I, (P.any fun p => compKeyMatches p i) = false ∧ q = injOnlyCRow i) := by
  unfold mergeOuterComp
  rw [List.mem_append, List.mem_flatMap]
  constructor
  · rintro (⟨p, hp, hq⟩ | hq)
    · left
      refine ⟨p, hp, ?_⟩
      by_cases hf : I.filter (compKeyMatches p) = []
      · rw [if_pos hf] at hq
        exact Or.inl ⟨hf, List.mem_singleton.mp hq⟩
      · rw [if_neg hf] at hq
        obtain ⟨i, hi, rfl⟩ := List.mem_map.mp hq
        obtain ⟨hiI, hm⟩ := List.mem_filter.mp hi
        exact Or.inr ⟨i, hiI, hm, rfl⟩
    · right
      obtain ⟨i, hi, rfl⟩ := List.mem_map.mp hq
      obtain ⟨hiI, hm⟩ := List.mem_filter.mp hi
      exact ⟨i, hiI, by simpa using hm, rfl⟩
  · rintro (⟨p, hp, (⟨hf, rfl⟩ | ⟨i, hi, hm, rfl⟩)⟩ | ⟨i, hi, hm, rfl⟩)
    · exact Or.inl ⟨p, hp, by rw [if_pos hf]; exact List.mem_singleton.mpr rfl⟩
    · have hif : i ∈ I.filter (compKeyMatches p) := List.mem_filter.mpr ⟨hi, hm⟩
      have hne : I.filter (compKeyMatches p) ≠ [] := List.ne_nil_of_mem hif
      exact Or.inl ⟨p, hp, by rw [if_neg hne]; exact List.mem_map.mpr ⟨i, hif, rfl⟩⟩
    · refine Or.inr (List.mem_map.mpr ⟨i, List.mem_filter.mpr ⟨hi, ?_⟩, rfl⟩)
      simp only [Bool.not_eq_true']
      exact hm

theorem mergeOuterComp_defaults {P : List CompRow} {I : List CompInjRow} :
    ∀ q ∈ mergeOuterComp P I, q.well_type = .UNKNOWN ∧ q.is_active = 0 := by
  intro q hq
  rcases mem_mergeOuterComp.mp hq with ⟨p, _, (⟨_, rfl⟩ | ⟨i, _, _, rfl⟩)⟩ | ⟨i, _, _, rfl⟩ <;>
    exact ⟨rfl, rfl⟩

theorem mergeOuterComp_nil_inj {P : List CompRow} :
    ∀ q ∈ mergeOuterComp P ([] : List CompInjRow), q.water_inj_rate = 0 := by
  intro q hq
  rcases mem_mergeOuterComp.mp hq with ⟨p, _, (⟨_, rfl⟩ | ⟨i, hi, _, _⟩)⟩ | ⟨i, hi, _, _⟩
  · rfl
  · cases hi
  · cases hi

theorem classifyCompRow_fields (r : CompStatus) :
    (classifyCompRow r).well_name = r.well_name ∧
    (classifyCompRow r).completion_name = r.completion_name ∧
    (classifyCompRow r).reservoir = r.reservoir ∧
    (classifyCompRow r).year = r.year ∧ (classifyCompRow r).month = r.month ∧
    (classifyCompRow r).is_active = r.is_active ∧
    (classifyCompRow r).oil_rate = r.oil_rate ∧
    (classifyCompRow r).water_rate = r.water_rate ∧
    (classifyCompRow r).water_inj_rate = r.water_inj_rate := by
  unfold classifyCompRow
  split_ifs <;> exact ⟨rfl, rfl, rfl, rfl, rfl, rfl, rfl, rfl, rfl⟩

theorem resolveCompDual_fields (r : CompStatus) :
    (resolveCompDual r).well_name = r.well_name ∧
    (resolveCompDual r).completion_name = r.completion_name ∧
    (resolveCompDual r).reservoir = r.reservoir ∧
    (resolveCompDual r).year = r.year ∧ (resolveCompDual r).month = r.month ∧
    (resolveCompDual r).is_active = r.is_active ∧
    (resolveCompDual r).oil_rate = r.oil_rate ∧
    (resolveCompDual r).water_rate = r.water_rate ∧
    (resolveCompDual r).water_inj_rate = r.water_inj_rate := by
  unfold resolveCompDual
  split_ifs <;> exact ⟨rfl, rfl, rfl, rfl, rfl, rfl, rfl, rfl, rfl⟩

theorem setActive_fields (r : CompStatus) :
    (setActive r).well_name = r.well_name ∧
    (setActive r).completion_name = r.completion_name ∧
    (setActive r).reservoir = r.reservoir ∧
    (setActive r).year = r.year ∧ (setActive r).month = r.month ∧
    (setActive r).well_type = r.well_type ∧
    (setActive r).oil_rate = r.oil_rate ∧
    (setActive r).water_rate = r.water_rate ∧
    (setActive r).water_inj_rate = r.water_inj_rate := by
  unfold setActive
  exact ⟨rfl, rfl, rfl, rfl, rfl, rfl, rfl, rfl, rfl⟩

theorem classifyCompRow_dual {q : CompStatus} (hq : q.well_type = .UNKNOWN)
    (hd : (classifyCompRow q).well_type = .DUAL) : hasProdComp q ∧ hasInjComp q := by
  by_cases hp : hasProdComp q
  · by_cases hi : hasInjComp q
    · exact ⟨hp, hi⟩
    · exfalso
      unfold classifyCompRow at hd
      rw [if_pos ⟨hp, hi⟩] at hd
      simp at hd
  · exfalso
    unfold classifyCompRow at hd
    rw [if_neg (fun h => hp h.1)] at hd
    by_cases hi : hasInjComp q
    · rw [if_pos ⟨hp, hi⟩] at hd
      simp at hd
    · rw [if_neg (fun h => hi h.2), if_neg (fun h => hp h.1)] at hd
      rw [hq] at hd
      simp at hd

theorem chunk_size_ne_zero : chunk_size ≠ 0 := by
  unfold chunk_size
  exact Nat.succ_ne_zero 9999 ∘ fun h => h ▸ rfl

/-- Membership in the final chunk-sorted completion output agrees with
membership in the merged-and-classified table. -/
theorem mem_chunkSorted {l : List CompStatus} {r : CompStatus} :
    r ∈ (chunksOf chunk_size l).flatMap
        (List.insertionSort fun a b => compSortLeB a b = true) ↔ r ∈ l :=
  (chunksOf_flatMap_perm chunk_size chunk_size_ne_zero _
    (fun c => List.perm_insertionSort _ c) l).mem_iff

theorem exists_max_ym : ∀ l : List MRow, l ≠ [] → ∃ s ∈ l, ∀ τ ∈ l, ymLe τ.ym s.ym := by
  intro l
  induction l with
  | nil => intro h; exact absurd rfl h
  | cons x xs ih =>
    intro _
    cases xs with
    | nil =>
      refine ⟨x, List.mem_cons_self x [], ?_⟩
      intro τ hτ
      rcases List.mem_singleton.mp hτ with rfl
      exact ymLe_refl _
    | cons y ys =>
      obtain ⟨s, hs, hmax⟩ := ih (List.cons_ne_nil y ys)
      rcases ymLe_total x.ym s.ym with h | h
      · refine ⟨s, List.mem_cons_of_mem x hs, ?_⟩
        intro τ hτ
        rcases List.mem_cons.mp hτ with rfl | hτ2
        · exact h
        · exact hmax τ hτ2
      · refine ⟨x, List.mem_cons_self x (y :: ys), ?_⟩
        intro τ hτ
        rcases List.mem_cons.mp hτ with rfl | hτ2
        · exact ymLe_refl _
        · exact ymLe_trans (hmax τ hτ2) h

theorem filterMap_filter_isSome {α β : Type} (f : α → Option β) (p : α → Bool) (l : List α)
    (hp : ∀ x, p x = (f x).isSome) : (l.filter p).filterMap f = l.filterMap f := by
  induction l with
  | nil => rfl
  | cons x xs ih =>
    rw [List.filter_cons]
    by_cases hx : p x = true
    · rw [if_pos hx, List.filterMap_cons, List.filterMap_cons, ih]
    · have hpf : p x = false := by
        cases h : p x
        · rfl
        · exact absurd h hx
      have hfx : f x = none := by
        cases ho : f x with
        | none => rfl
        | some b =>
          have h2 := hp x
          rw [ho, hpf] at h2
          cases h2
      rw [if_neg hx, List.filterMap_cons, hfx, ih]

theorem mapProdRow_isSome (wtc : List (String × List String)) (r : ProdRow) :
    (completionToWell wtc r.comp_s_name).isSome = (mapProdRow wtc r).isSome := by
  unfold mapProdRow
  cases completionToWell wtc r.comp_s_name <;> rfl

theorem mapInjRow_isSome (wtc : List (String × List String)) (r : InjRow) :
    (completionToWell wtc r.completion_legal_name).isSome = (mapInjRow wtc r).isSome := by
  unfold mapInjRow
  cases completionToWell wtc r.completion_legal_name <;> rfl

/-! ### Claim theorems and witnesses -/

/-- C10: if the monthly injection table is empty and the monthly production
table is non-empty, every well-level output row has well_type PRODUCTION,
water_inj_rate 0 and has_dual_function 0 (the rows bypass the carry-forward
walk, so months with zero rates are never UNKNOWN); symmetrically, with an
empty production table and non-empty injection table every row is
INJECTION. -/
theorem C10_single_sided_tables (ds : DataStore) :
    (process_injection_data ds = [] → process_production_data ds ≠ [] →
      ∀ r ∈ calculate_monthly_well_types ds,
        r.well_type = .PRODUCTION ∧ r.water_inj_rate = 0 ∧ r.has_dual_function = 0) ∧
    (process_production_data ds = [] → process_injection_data ds ≠ [] →
      ∀ r ∈ calculate_monthly_well_types ds, r.well_type = .INJECTION) := by
  constructor
  · intro hI hP r hr
    unfold calculate_monthly_well_types combinedMonthly combine_and_classify_data at hr
    rw [if_neg (fun h => hP h.1), if_neg hP, if_pos hI] at hr
    obtain ⟨r0, hr0, rfl⟩ := List.mem_map.mp hr
    rw [List.mem_insertionSort] at hr0
    obtain ⟨p, hp, rfl⟩ := List.mem_map.mp hr0
    unfold resolveDual
    rw [if_neg (by simp)]
    exact ⟨rfl, rfl, rfl⟩
  · intro hP hI r hr
    unfold calculate_monthly_well_types combinedMonthly combine_and_classify_data at hr
    rw [if_neg (fun h => hI h.2), if_pos hP] at hr
    obtain ⟨r0, hr0, rfl⟩ := List.mem_map.mp hr
    rw [List.mem_insertionSort] at hr0
    obtain ⟨i, hi, rfl⟩ := List.mem_map.mp hr0
    unfold resolveDual
    rw [if_neg (by simp)]

theorem C10_single_sided_tables_witness :
    ((⟨"W", 2020, 2, .PRODUCTION, 0, 0, 0, 0⟩ : MRow).well_type = .PRODUCTION ∧
      (⟨"W", 2020, 2, .PRODUCTION, 0, 0, 0, 0⟩ : MRow).water_inj_rate = 0 ∧
      (⟨"W", 2020, 2, .PRODUCTION, 0, 0, 0, 0⟩ : MRow).has_dual_function = 0) ∧
    (⟨"W", 2020, 1, .INJECTION, 0, 0, 1, 0⟩ : MRow).well_type = .INJECTION :=
  ⟨(C10_single_sided_tables dsInjEmpty).1 (by with_unfolding_all decide)
      (by with_unfolding_all decide) _ (by with_unfolding_all decide),
    (C10_single_sided_tables dsProdEmpty).2 (by with_unfolding_all decide)
      (by with_unfolding_all decide) _ (by with_unfolding_all decide)⟩

/-- C9: readings whose completion has no entry in the completion-to-well
mapping are silently excluded: the aggregated monthly tables computed from
the full raw tables equal the ones computed from the mappable readings
alone. -/
theorem C9_unmappable_silently_dropped (ds : DataStore) :
    process_production_data ds
      = process_production_data
          ⟨ds.production_data.filter (fun r =>
              (completionToWell ds.well_to_completions r.comp_s_name).isSome),
            ds.injection_data, ds.well_to_completions, ds.completion_to_reservoir⟩ ∧
    process_injection_data ds
      = process_injection_data
          ⟨ds.production_data,
            ds.injection_data.filter (fun r =>
              (completionToWell ds.well_to_completions r.completion_legal_name).isSome),
            ds.well_to_completions, ds.completion_to_reservoir⟩ := by
  constructor
  · have hkey : ((ds.production_data.filter fun r =>
        (completionToWell ds.well_to_completions r.comp_s_name).isSome).filterMap
          (mapProdRow ds.well_to_completions))
        = ds.production_data.filterMap (mapProdRow ds.well_to_completions) :=
      filterMap_filter_isSome _ _ _ fun x => mapProdRow_isSome ds.well_to_completions x
    unfold process_production_data
    by_cases h0 : ds.production_data = []
    · rw [h0]
      rfl
    · rw [if_neg h0]
      show _ = if (ds.production_data.filter fun r =>
          (completionToWell ds.well_to_completions r.comp_s_name).isSome) = [] then _ else _
      by_cases h1 : (ds.production_data.filter fun r =>
          (completionToWell ds.well_to_completions r.comp_s_name).isSome) = []
      · rw [if_pos h1, ← hkey, h1]
        rfl
      · rw [if_neg h1, ← hkey]
  · have hkey : ((ds.injection_data.filter fun r =>
        (completionToWell ds.well_to_completions r.completion_legal_name).isSome).filterMap
          (mapInjRow ds.well_to_completions))
        = ds.injection_data.filterMap (mapInjRow ds.well_to_completions) :=
      filterMap_filter_isSome _ _ _ fun x => mapInjRow_isSome ds.well_to_completions x
    unfold process_injection_data
    by_cases h0 : ds.injection_data = []
    · rw [h0]
      rfl
    · rw [if_neg h0]
      show _ = if (ds.injection_data.filter fun r =>
          (completionToWell ds.well_to_completions r.completion_legal_name).isSome) = [] then _
        else _
      by_cases h1 : (ds.injection_data.filter fun r =>
          (completionToWell ds.well_to_completions r.completion_legal_name).isSome) = []
      · rw [if_pos h1, ← hkey, h1]
        rfl
      · rw [if_neg h1, ← hkey]

/-- C7: a completion-status row is flagged active exactly when its own
month's oil, water or injection rate is strictly positive; carry-forward
never sets the flag (the completion pipeline performs none). -/
theorem C7_is_active_iff_observed (ds : DataStore) :
    ∀ r ∈ calculate_completion_status ds,
      (r.is_active = 1 ↔ (0 < r.oil_rate ∨ 0 < r.water_rate ∨ 0 < r.water_inj_rate)) := by
  intro r hr
  unfold calculate_completion_status combine_completion_data at hr
  by_cases hP0 : process_completion_production_data ds = []
  · by_cases hI0 : process_completion_injection_data ds = []
    · rw [if_pos ⟨hP0, hI0⟩] at hr
      cases hr
    · rw [if_neg (fun h => hI0 h.2), if_pos hP0, List.mem_insertionSort] at hr
      obtain ⟨i, hi, rfl⟩ := List.mem_map.mp hr
      by_cases hpos : 0 < i.water_inj_rate <;> simp [hpos]
  · rw [if_neg (fun h => hP0 h.1), if_neg hP0] at hr
    by_cases hI0 : process_completion_injection_data ds = []
    · rw [if_pos hI0, List.mem_insertionSort] at hr
      obtain ⟨p, hp, rfl⟩ := List.mem_map.mp hr
      by_cases hpos : 0 < p.oil_rate ∨ 0 < p.water_rate
      · simp only [hpos]
        simp [or_assoc]
        tauto
      · simp only [hpos]
        simp
        push_neg at hpos
        exact ⟨hpos.1, hpos.2⟩
    · rw [if_neg hI0] at hr
      obtain ⟨r1, hr1, rfl⟩ := List.mem_map.mp (mem_chunkSorted.mp hr)
      unfold setActive
      by_cases hc : hasProdComp r1 ∨ hasInjComp r1
      · simp only [hc, if_pos]
        unfold hasProdComp hasInjComp at hc
        simp
        tauto
      · simp only [hc, if_neg, if_false]
        unfold hasProdComp hasInjComp at hc
        push_neg at hc
        simp
        exact ⟨hc.1.1, hc.1.2, hc.2⟩

/-- C2: every month whose pre-resolution mode is DUAL resolves to
PRODUCTION exactly when oil_rate + water_rate >= water_inj_rate, at both
granularities, and the spec's two concrete instances resolve as stated. -/
theorem C2_dual_resolution :
    (∀ (ds : DataStore) (r : MRow), r ∈ combinedMonthly ds → r.well_type = .DUAL →
      { r with well_type :=
          if r.oil_rate + r.water_rate ≥ r.water_inj_rate then WellType.PRODUCTION
          else WellType.INJECTION } ∈ calculate_monthly_well_types ds) ∧
    (∀ (prodM : List CompRow) (injM : List CompInjRow) (r : CompStatus),
      r ∈ completionClassified prodM injM → r.well_type = .DUAL →
      ∃ s ∈ combine_completion_data prodM injM,
        s.well_name = r.well_name ∧ s.completion_name = r.completion_name ∧
        s.year = r.year ∧ s.month = r.month ∧
        s.oil_rate = r.oil_rate ∧ s.water_rate = r.water_rate ∧
        s.water_inj_rate = r.water_inj_rate ∧
        s.well_type = (if r.oil_rate + r.water_rate ≥ r.water_inj_rate then WellType.PRODUCTION
          else WellType.INJECTION)) ∧
    (calculate_monthly_well_types dsDualProd).map MRow.well_type = [.PRODUCTION] ∧
    (calculate_monthly_well_types dsDualInj).map MRow.well_type = [.INJECTION] := by
  refine ⟨?_, ?_, by with_unfolding_all decide, by with_unfolding_all decide⟩
  · intro ds r hr hd
    unfold calculate_monthly_well_types
    have hres : resolveDual r = { r with well_type :=
        if r.oil_rate + r.water_rate ≥ r.water_inj_rate then WellType.PRODUCTION
        else WellType.INJECTION } := by
      unfold resolveDual
      rw [if_pos hd]
    rw [← hres]
    exact List.mem_map_of_mem resolveDual hr
  · intro P I r hr hd
    have hrmem := hr
    have hP : P ≠ [] := by
      intro h0
      rw [h0] at hr
      unfold completionClassified completionMergedChunks at hr
      rw [chunksOf_nil] at hr
      cases hr
    obtain ⟨q, hq, hrq⟩ := List.mem_map.mp hr
    obtain ⟨ch, hch, hqch⟩ := List.mem_flatMap.mp hq
    have hdef := (mergeOuterComp_defaults q hqch).1
    have hpi : hasProdComp q ∧ hasInjComp q := classifyCompRow_dual hdef (by rw [hrq]; exact hd)
    have hI : I ≠ [] := by
      intro h0
      rw [h0] at hqch
      have hz := mergeOuterComp_nil_inj q hqch
      have hinj := hpi.2
      unfold hasInjComp at hinj
      rw [hz] at hinj
      exact lt_irrefl 0 hinj
    refine ⟨setActive (resolveCompDual r), ?_, ?_⟩
    · unfold combine_completion_data
      rw [if_neg (fun h => hP h.1), if_neg hP, if_neg hI, mem_chunkSorted]
      exact List.mem_map_of_mem _ (List.mem_map_of_mem _ hrmem)
    · obtain ⟨f1, f2, f3, f4, f5, _, f7, f8, f9⟩ := setActive_fields (resolveCompDual r)
      obtain ⟨g1, g2, g3, g4, g5, _, g7, g8, g9⟩ := resolveCompDual_fields r
      have hwt : (resolveCompDual r).well_type
          = (if r.oil_rate + r.water_rate ≥ r.water_inj_rate then WellType.PRODUCTION
            else WellType.INJECTION) := by
        unfold resolveCompDual
        rw [if_pos hd]
      refine ⟨?_, ?_, ?_, ?_, ?_, ?_, ?_, ?_⟩
      · rw [f1, g1]
      · rw [f2, g2]
      · rw [f4, g4]
      · rw [f5, g5]
      · rw [f7, g7]
      · rw [f8, g8]
      · rw [f9, g9]
      · rw [(setActive_fields (resolveCompDual r)).2.2.2.2.2.1, hwt]

theorem C2_dual_resolution_witness :
    (⟨"W", 2021, 1, .PRODUCTION, 5, 3, 4, 1⟩ : MRow)
      ∈ calculate_monthly_well_types dsDualProd := by
  have h := C2_dual_resolution.1 dsDualProd ⟨"W", 2021, 1, .DUAL, 5, 3, 4, 1⟩
    (by with_unfolding_all decide) rfl
  norm_num at h
  exact h

theorem prod_oil_sum_div (wtc : List (String × List String)) (w : String) (y m : ℕ) :
    ∀ raw : List ProdRow,
      (((raw.filterMap (mapProdRow wtc)).filter fun q =>
          decide ((q.well_name, q.year, q.month) = (w, y, m))).map ProdMonthly.oil_rate).sum
        = ((raw.filter fun x => decide (completionToWell wtc x.comp_s_name = some w ∧
            x.prod_year = y ∧ x.prod_month = m)).map ProdRow.vo_oil_prod).sum
          / (daysInMonth y m : ℚ) := by
  intro raw
  induction raw with
  | nil => simp
  | cons x xs ih =>
    rw [List.filterMap_cons, List.filter_cons]
    cases hcw : completionToWell wtc x.comp_s_name with
    | none =>
      have hmap : mapProdRow wtc x = none := by
        unfold mapProdRow
        rw [hcw]
      rw [hmap, if_neg (by simp [hcw])]
      exact ih
    | some v =>
      have hmap : mapProdRow wtc x = some ⟨v, x.prod_year, x.prod_month,
          x.vo_oil_prod / (daysInMonth x.prod_year x.prod_month : ℚ),
          x.vo_wat_prod / (daysInMonth x.prod_year x.prod_month : ℚ)⟩ := by
        unfold mapProdRow
        rw [hcw]
      rw [hmap, List.filter_cons]
      by_cases hk : v = w ∧ x.prod_year = y ∧ x.prod_month = m
      · obtain ⟨rfl, hyy, hmm⟩ := hk
        subst hyy
        subst hmm
        rw [if_pos (by simp), if_pos (by simp [hcw])]
        rw [List.map_cons, List.sum_cons, List.map_cons, List.sum_cons, ih, add_div]
      · rw [if_neg (by simp only [decide_eq_true_eq, Prod.mk.injEq]; exact fun h => hk h),
          if_neg (by simp only [decide_eq_true_eq, hcw, Option.some.injEq]; exact fun h => hk h)]
        exact ih

theorem prod_water_sum_div (wtc : List (String × List String)) (w : String) (y m : ℕ) :
    ∀ raw : List ProdRow,
      (((raw.filterMap (mapProdRow wtc)).filter fun q =>
          decide ((q.well_name, q.year, q.month) = (w, y, m))).map ProdMonthly.water_rate).sum
        = ((raw.filter fun x => decide (completionToWell wtc x.comp_s_name = some w ∧
            x.prod_year = y ∧ x.prod_month = m)).map ProdRow.vo_wat_prod).sum
          / (daysInMonth y m : ℚ) := by
  intro raw
  induction raw with
  | nil => simp
  | cons x xs ih =>
    rw [List.filterMap_cons, List.filter_cons]
    cases hcw : completionToWell wtc x.comp_s_name with
    | none =>
      have hmap : mapProdRow wtc x = none := by
        unfold mapProdRow
        rw [hcw]
      rw [hmap, if_neg (by simp [hcw])]
      exact ih
    | some v =>
      have hmap : mapProdRow wtc x = some ⟨v, x.prod_year, x.prod_month,
          x.vo_oil_prod / (daysInMonth x.prod_year x.prod_month : ℚ),
          x.vo_wat_prod / (daysInMonth x.prod_year x.prod_month : ℚ)⟩ := by
        unfold mapProdRow
        rw [hcw]
      rw [hmap, List.filter_cons]
      by_cases hk : v = w ∧ x.prod_year = y ∧ x.prod_month = m
      · obtain ⟨rfl, hyy, hmm⟩ := hk
        subst hyy
        subst hmm
        rw [if_pos (by simp), if_pos (by simp [hcw])]
        rw [List.map_cons, List.sum_cons, List.map_cons, List.sum_cons, ih, add_div]
      · rw [if_neg (by simp only [decide_eq_true_eq, Prod.mk.injEq]; exact fun h => hk h),
          if_neg (by simp only [decide_eq_true_eq, hcw, Option.some.injEq]; exact fun h => hk h)]
        exact ih

theorem inj_rate_sum_div (wtc : List (String × List String)) (w : String) (y m : ℕ) :
    ∀ raw : List InjRow,
      (((raw.filterMap (mapInjRow wtc)).filter fun q =>
          decide ((q.well_name, q.year, q.month) = (w, y, m))).map InjMonthly.water_inj_rate).sum
        = ((raw.filter fun x =>
            decide (completionToWell wtc x.completion_legal_name = some w ∧
              x.inj_year = y ∧ x.inj_month = m)).map InjRow.water_inj_calday).sum
          / (daysInMonth y m : ℚ) := by
  intro raw
  induction raw with
  | nil => simp
  | cons x xs ih =>
    rw [List.filterMap_cons, List.filter_cons]
    cases hcw : completionToWell wtc x.completion_legal_name with
    | none =>
      have hmap : mapInjRow wtc x = none := by
        unfold mapInjRow
        rw [hcw]
      rw [hmap, if_neg (by simp [hcw])]
      exact ih
    | some v =>
      have hmap : mapInjRow wtc x = some ⟨v, x.inj_year, x.inj_month,
          x.water_inj_calday / (daysInMonth x.inj_year x.inj_month : ℚ)⟩ := by
        unfold mapInjRow
        rw [hcw]
      rw [hmap, List.filter_cons]
      by_cases hk : v = w ∧ x.inj_year = y ∧ x.inj_month = m
      · obtain ⟨rfl, hyy, hmm⟩ := hk
        subst hyy
        subst hmm
        rw [if_pos (by simp), if_pos (by simp [hcw])]
        rw [List.map_cons, List.sum_cons, List.map_cons, List.sum_cons, ih, add_div]
      · rw [if_neg (by simp only [decide_eq_true_eq, Prod.mk.injEq]; exact fun h => hk h),
          if_neg (by simp only [decide_eq_true_eq, hcw, Option.some.injEq]; exact fun h => hk h)]
        exact ih

/-- C8: each aggregated monthly row's rate equals the sum of its group's
raw volumes divided by that month's calendar-day count: the code's per-row
divide-then-sum computes the spec's sum-then-divide, because all rows of
one (year, month) group share the same days-in-month. -/
theorem C8_rate_is_group_volume_over_days :
    (∀ (ds : DataStore) (r : ProdMonthly), r ∈ process_production_data ds →
      r.oil_rate = ((ds.production_data.filter fun x =>
          decide (completionToWell ds.well_to_completions x.comp_s_name = some r.well_name ∧
            x.prod_year = r.year ∧ x.prod_month = r.month)).map ProdRow.vo_oil_prod).sum
        / (daysInMonth r.year r.month : ℚ) ∧
      r.water_rate = ((ds.production_data.filter fun x =>
          decide (completionToWell ds.well_to_completions x.comp_s_name = some r.well_name ∧
            x.prod_year = r.year ∧ x.prod_month = r.month)).map ProdRow.vo_wat_prod).sum
        / (daysInMonth r.year r.month : ℚ)) ∧
    (∀ (ds : DataStore) (r : InjMonthly), r ∈ process_injection_data ds →
      r.water_inj_rate = ((ds.injection_data.filter fun x =>
          decide (completionToWell ds.well_to_completions x.completion_legal_name
              = some r.well_name ∧ x.inj_year = r.year ∧ x.inj_month = r.month)).map
          InjRow.water_inj_calday).sum / (daysInMonth r.year r.month : ℚ)) := by
  constructor
  · intro ds r hr
    unfold process_production_data at hr
    split_ifs at hr with h0
    · cases hr
    · unfold groupProdMonthly at hr
      obtain ⟨k, _, rfl⟩ := mem_groupBySum_iff.mp hr
      obtain ⟨w, y, m⟩ := k
      exact ⟨prod_oil_sum_div ds.well_to_completions w y m ds.production_data,
        prod_water_sum_div ds.well_to_completions w y m ds.production_data⟩
  · intro ds r hr
    unfold process_injection_data at hr
    split_ifs at hr with h0
    · cases hr
    · unfold groupInjMonthly at hr
      obtain ⟨k, _, rfl⟩ := mem_groupBySum_iff.mp hr
      obtain ⟨w, y, m⟩ := k
      exact inj_rate_sum_div ds.well_to_completions w y m ds.injection_data

theorem C8_rate_is_group_volume_over_days_witness :
    (⟨"W", 2020, 3, 1, 0⟩ : ProdMonthly).oil_rate
        = ((dsLeadGap.production_data.filter fun x =>
            decide (completionToWell dsLeadGap.well_to_completions x.comp_s_name
                = some (⟨"W", 2020, 3, 1, 0⟩ : ProdMonthly).well_name ∧
              x.prod_year = (⟨"W", 2020, 3, 1, 0⟩ : ProdMonthly).year ∧
              x.prod_month = (⟨"W", 2020, 3, 1, 0⟩ : ProdMonthly).month)).map
            ProdRow.vo_oil_prod).sum
          / (daysInMonth (⟨"W", 2020, 3, 1, 0⟩ : ProdMonthly).year
              (⟨"W", 2020, 3, 1, 0⟩ : ProdMonthly).month : ℚ) ∧
    (⟨"W", 2020, 3, 1, 0⟩ : ProdMonthly).water_rate
        = ((dsLeadGap.production_data.filter fun x =>
            decide (completionToWell dsLeadGap.well_to_completions x.comp_s_name
                = some (⟨"W", 2020, 3, 1, 0⟩ : ProdMonthly).well_name ∧
              x.prod_year = (⟨"W", 2020, 3, 1, 0⟩ : ProdMonthly).year ∧
              x.prod_month = (⟨"W", 2020, 3, 1, 0⟩ : ProdMonthly).month)).map
            ProdRow.vo_wat_prod).sum
          / (daysInMonth (⟨"W", 2020, 3, 1, 0⟩ : ProdMonthly).year
              (⟨"W", 2020, 3, 1, 0⟩ : ProdMonthly).month : ℚ) :=
  C8_rate_is_group_volume_over_days.1 dsLeadGap ⟨"W", 2020, 3, 1, 0⟩
    (by with_unfolding_all decide)

theorem wellSeed_all_zero {hist : List (String × Bool × Bool)} {L : List MRow} {w : String}
    (hz : ∀ x ∈ L, x.oil_rate = 0 ∧ x.water_rate = 0 ∧ x.water_inj_rate = 0)
    (hl : histLookup hist w = some (false, true)) :
    wellSeed hist L w = some .INJECTION := by
  have h1 : (L.any fun r => decide (0 < r.oil_rate) || decide (0 < r.water_rate)) = false := by
    rw [List.any_eq_false]
    intro x hx
    obtain ⟨ho, hw, _⟩ := hz x hx
    simp [ho, hw]
  have h2 : (L.any fun r => decide (0 < r.water_inj_rate)) = false := by
    rw [List.any_eq_false]
    intro x hx
    simp [(hz x hx).2.2]
  simp only [wellSeed]
  rw [h1, h2, hl]
  simp

/-- C6: at the well level, a well whose rows all carry zero rates is
classified INJECTION in every month when the presence-history index marks
injection history only (the seed from the index); at the fine granularity a
zero-rate month is never flagged active. -/
theorem C6_injection_seed_from_history :
    (∀ (prodM : List ProdMonthly) (injM : List InjMonthly)
        (hist : List (String × Bool × Bool)) (w : String),
      injM ≠ [] →
      histLookup hist w = some (false, true) →
      (∀ p ∈ prodM, p.well_name = w → p.oil_rate = 0 ∧ p.water_rate = 0) →
      (∀ i ∈ injM, i.well_name = w → i.water_inj_rate = 0) →
      ∀ r ∈ combine_and_classify_data prodM injM hist, r.well_name = w →
        r.well_type = .INJECTION) ∧
    (∀ (ds : DataStore) (r : CompStatus), r ∈ calculate_completion_status ds →
      r.oil_rate = 0 → r.water_rate = 0 → r.water_inj_rate = 0 → r.is_active = 0) := by
  constructor
  · intro P I hist w hI hlook hPz hIz r hr hw
    unfold combine_and_classify_data at hr
    rw [if_neg (fun h => hI h.2)] at hr
    by_cases hP : P = []
    · rw [if_pos hP, List.mem_insertionSort] at hr
      obtain ⟨i, hi, rfl⟩ := List.mem_map.mp hr
      rfl
    · rw [if_neg hP, if_neg hI, List.mem_insertionSort] at hr
      set C := (mergeOuterWell P I).map classifyRow with hCdef
      have hMz : ∀ q ∈ mergeOuterWell P I, q.well_name = w →
          q.oil_rate = 0 ∧ q.water_rate = 0 ∧ q.water_inj_rate = 0 := by
        intro q hq hqw
        rcases mem_mergeOuterWell.mp hq with
          ⟨p, hp, (⟨_, rfl⟩ | ⟨i, hiI, hm, rfl⟩)⟩ | ⟨i, hiI, _, rfl⟩
        · obtain ⟨ho, hwat⟩ := hPz p hp hqw
          exact ⟨ho, hwat, rfl⟩
        · obtain ⟨ho, hwat⟩ := hPz p hp hqw
          have hiw : i.well_name = w := by
            have hkey := wellKeyMatches_iff.mp hm
            have hnames : i.well_name = p.well_name := by
              have := congrArg Prod.fst hkey
              simpa [InjMonthly.ikey, ProdMonthly.pkey] using this
            rw [hnames]
            exact hqw
          exact ⟨ho, hwat, hIz i hiI hiw⟩
        · exact ⟨rfl, rfl, hIz i hiI hqw⟩
      have hCz : ∀ q ∈ C, q.well_name = w →
          q.oil_rate = 0 ∧ q.water_rate = 0 ∧ q.water_inj_rate = 0 := by
        intro q hq hqw
        rw [hCdef] at hq
        obtain ⟨q0, hq0, rfl⟩ := List.mem_map.mp hq
        obtain ⟨n1, _, _, o1, w1, i1⟩ := classifyRow_fields q0
        have hq0w : q0.well_name = w := by rw [← n1]; exact hqw
        obtain ⟨a, b, c⟩ := hMz q0 hq0 hq0w
        rw [o1, w1, i1]
        exact ⟨a, b, c⟩
      unfold carryForwardStage at hr
      obtain ⟨r₀, hr₀, hcore⟩ := exists_core_of_mem_foldl hr
      obtain ⟨e1, _, _, _, _, _, _⟩ := core_eq_iff.mp hcore
      have hr₀w : r₀.well_name = w := by rw [e1]; exact hw
      obtain ⟨z1, z2, z3⟩ := hCz r₀ hr₀ hr₀w
      have hgap₀ : ¬ hasProdRow r₀ ∧ ¬ hasInjRow r₀ := by
        unfold hasProdRow hasInjRow
        rw [z1, z2, z3]
        simp
      have hwgap : w ∈ wellsWithGap C := mem_wellsWithGap.mpr ⟨r₀, hr₀, hr₀w, hgap₀⟩
      have hfold := (wellRows_foldl hist w (wellsWithGap C) (List.nodup_dedup _) C).2 hwgap
      have hrW : r ∈ wellRows ((wellsWithGap C).foldl (processWell hist) C) w :=
        mem_wellRows.mpr ⟨hr, hw⟩
      rw [hfold] at hrW
      obtain ⟨r₁, hr₁, rfl⟩ := List.mem_map.mp hrW
      obtain ⟨hr₁C, hr₁w⟩ := mem_wellRows.mp hr₁
      have hLz : ∀ x ∈ sortChrono (wellRows C w),
          x.oil_rate = 0 ∧ x.water_rate = 0 ∧ x.water_inj_rate = 0 := by
        intro x hx
        rw [(sortChrono_perm _).mem_iff] at hx
        obtain ⟨hxC, hxw⟩ := mem_wellRows.mp hx
        exact hCz x hxC hxw
      have hallgap : ∀ x ∈ sortChrono (wellRows C w), ¬ hasProdRow x ∧ ¬ hasInjRow x := by
        intro x hx
        obtain ⟨a, b, c⟩ := hLz x hx
        unfold hasProdRow hasInjRow
        rw [a, b, c]
        simp
      have hassigns : assignsOf hist C w
          = (sortChrono (wellRows C w)).map fun x => ((x.year, x.month), WellType.INJECTION) := by
        unfold assignsOf
        rw [wellSeed_all_zero hLz hlook]
        exact walkSteps_all_gap hallgap
      have hfind : ((assignsOf hist C w).find? fun q => decide (q.1 = (r₁.year, r₁.month)))
          = some ((r₁.year, r₁.month), .INJECTION) := by
        rw [hassigns]
        apply find?_of_all_snd
        · intro e he
          obtain ⟨x, _, rfl⟩ := List.mem_map.mp he
          rfl
        · refine ⟨((r₁.year, r₁.month), .INJECTION), ?_, rfl⟩
          apply List.mem_map.mpr
          refine ⟨r₁, ?_, rfl⟩
          rw [(sortChrono_perm _).mem_iff]
          exact hr₁
      show (applyWalkRow w (assignsOf hist C w) r₁).well_type = .INJECTION
      unfold applyWalkRow
      rw [if_pos hr₁w, hfind]
  · intro ds r hr ho hwt hinj
    unfold calculate_completion_status combine_completion_data at hr
    by_cases hP0 : process_completion_production_data ds = []
    · by_cases hI0 : process_completion_injection_data ds = []
      · rw [if_pos ⟨hP0, hI0⟩] at hr
        cases hr
      · rw [if_neg (fun h => hI0 h.2), if_pos hP0, List.mem_insertionSort] at hr
        obtain ⟨i, hi, rfl⟩ := List.mem_map.mp hr
        have hz : i.water_inj_rate = 0 := hinj
        simp [hz]
    · rw [if_neg (fun h => hP0 h.1), if_neg hP0] at hr
      by_cases hI0 : process_completion_injection_data ds = []
      · rw [if_pos hI0, List.mem_insertionSort] at hr
        obtain ⟨p, hp, rfl⟩ := List.mem_map.mp hr
        have hz1 : p.oil_rate = 0 := ho
        have hz2 : p.water_rate = 0 := hwt
        simp [hz1, hz2]
      · rw [if_neg hI0] at hr
        obtain ⟨r1, hr1, rfl⟩ := List.mem_map.mp (mem_chunkSorted.mp hr)
        obtain ⟨_, _, _, _, _, _, s7, s8, s9⟩ := setActive_fields r1
        have hz1 : r1.oil_rate = 0 := by rw [← s7]; exact ho
        have hz2 : r1.water_rate = 0 := by rw [← s8]; exact hwt
        have hz3 : r1.water_inj_rate = 0 := by rw [← s9]; exact hinj
        have hcond : ¬ (hasProdComp r1 ∨ hasInjComp r1) := by
          unfold hasProdComp hasInjComp
          rw [hz1, hz2, hz3]
          simp
        unfold setActive
        rw [if_neg hcond]

theorem C6_injection_seed_from_history_witness :
    (⟨"X", 2020, 1, .INJECTION, 0, 0, 0, 0⟩ : MRow).well_type = .INJECTION ∧
    (⟨"W", "C", "UNKNOWN", 2020, 2, 0, .UNKNOWN, 0, 0, 0⟩ : CompStatus).is_active = 0 :=
  ⟨C6_injection_seed_from_history.1 [⟨"X", 2020, 1, 0, 0⟩] [⟨"Y", 2020, 1, 1⟩]
      [("X", false, true)] "X" (by with_unfolding_all decide) (by with_unfolding_all decide)
      (by with_unfolding_all decide) (by with_unfolding_all decide) _
      (by with_unfolding_all decide) (by with_unfolding_all decide),
    C6_injection_seed_from_history.2 dsGapAfterProd _ (by with_unfolding_all decide)
      (by with_unfolding_all decide) (by with_unfolding_all decide)
      (by with_unfolding_all decide)⟩

theorem histLookup_calculate {P : List ProdMonthly} {I : List InjMonthly} {w : String}
    (hw : w ∈ (P.map ProdMonthly.well_name) ++ (I.map InjMonthly.well_name)) :
    histLookup (calculate_historical_well_types P I) w
      = some
        (decide (0 < ((P.filter fun r => decide (r.well_name = w)).map
              ProdMonthly.oil_rate).sum)
          || decide (0 < ((P.filter fun r => decide (r.well_name = w)).map
              ProdMonthly.water_rate).sum),
          decide (0 < ((I.filter fun r => decide (r.well_name = w)).map
              InjMonthly.water_inj_rate).sum)) := by
  unfold histLookup calculate_historical_well_types
  rw [List.find?_map]
  have hfind : (((P.map ProdMonthly.well_name) ++ (I.map InjMonthly.well_name)).dedup.find?
      fun v => decide (v = w)) = some w := by
    have hmem : w ∈ ((P.map ProdMonthly.well_name) ++ (I.map InjMonthly.well_name)).dedup :=
      List.mem_dedup.mpr hw
    have hsome : (((P.map ProdMonthly.well_name) ++ (I.map InjMonthly.well_name)).dedup.find?
        fun v => decide (v = w)).isSome := by
      rw [List.find?_isSome]
      exact ⟨w, hmem, by simp⟩
    obtain ⟨v, hv⟩ := Option.isSome_iff_exists.mp hsome
    have hpred := List.find?_some hv
    have : v = w := by simpa using hpred
    rw [hv, this]
  have hcomp : ((fun q => decide (q.1 = w)) ∘ fun v =>
      ((v : String),
        decide (0 < ((P.filter fun r => decide (r.well_name = v)).map ProdMonthly.oil_rate).sum)
          || decide (0 < ((P.filter fun r => decide (r.well_name = v)).map
              ProdMonthly.water_rate).sum),
        decide (0 < ((I.filter fun r => decide (r.well_name = v)).map
            InjMonthly.water_inj_rate).sum)))
      = fun v => decide (v = w) := rfl
  rw [hcomp, hfind]
  rfl

theorem classifyCompRow_of_gap {q : CompStatus} (hp : ¬ hasProdComp q) (hi : ¬ hasInjComp q) :
    classifyCompRow q = q := by
  unfold classifyCompRow
  rw [if_neg (fun h => hp h.1), if_neg (fun h => hi h.2), if_neg (fun h => hp h.1)]

/-- C3 counterexample: completion C of dsGapAfterProd produces in January
2020 and has a zero-volume reading in February 2020; the February row of
the completion-level output is labelled UNKNOWN although the nearest
preceding observed month of the same completion is PRODUCTION — the
completion-level run performs no temporal carry-forward. -/
theorem C3_no_completion_carry_forward_counterexample :
    ((calculate_completion_status dsGapAfterProd).filter fun r =>
        decide (r.completion_name = "C" ∧ r.year = 2020 ∧ r.month = 2)).map
      CompStatus.well_type = [.UNKNOWN] ∧
    ((calculate_completion_status dsGapAfterProd).filter fun r =>
        decide (r.completion_name = "C" ∧ r.year = 2020 ∧ r.month = 1)).map
      CompStatus.well_type = [.PRODUCTION] ∧
    ((calculate_completion_status dsGapAfterProd).filter fun r =>
        decide (r.completion_name = "C" ∧ r.year = 2020 ∧ r.month = 2)).map
      (fun r => (r.oil_rate, r.water_rate, r.water_inj_rate)) = [(0, 0, 0)] ∧
    WellType.UNKNOWN ≠ WellType.PRODUCTION := by
  with_unfolding_all decide

/-- C3 amended: the completion-level (fine-granularity) run applies no
temporal carry-forward at all: when both completion-level monthly tables
are non-empty, a completion month with no observed data is labelled
UNKNOWN rather than receiving the completion's nearest preceding observed
mode; when exactly one table is empty, every row — gap months included —
is uniformly labelled PRODUCTION (resp. INJECTION). -/
theorem C3_no_completion_carry_forward_amended (ds : DataStore) :
    (process_completion_production_data ds ≠ [] →
     process_completion_injection_data ds ≠ [] →
     ∀ r ∈ calculate_completion_status ds,
       r.oil_rate = 0 → r.water_rate = 0 → r.water_inj_rate = 0 →
       r.well_type = .UNKNOWN) ∧
    (process_completion_production_data ds ≠ [] →
     process_completion_injection_data ds = [] →
     ∀ r ∈ calculate_completion_status ds, r.well_type = .PRODUCTION) ∧
    (process_completion_production_data ds = [] →
     process_completion_injection_data ds ≠ [] →
     ∀ r ∈ calculate_completion_status ds, r.well_type = .INJECTION) := by
  refine ⟨?_, ?_, ?_⟩
  case refine_2 =>
    intro hP hI r hr
    unfold calculate_completion_status combine_completion_data at hr
    rw [if_neg (fun h => hP h.1), if_neg hP, if_pos hI, List.mem_insertionSort] at hr
    obtain ⟨p, _, rfl⟩ := List.mem_map.mp hr
    rfl
  case refine_3 =>
    intro hP hI r hr
    unfold calculate_completion_status combine_completion_data at hr
    rw [if_neg (fun h => hI h.2), if_pos hP, List.mem_insertionSort] at hr
    obtain ⟨i, _, rfl⟩ := List.mem_map.mp hr
    rfl
  intro hP hI r hr ho hw hinj
  unfold calculate_completion_status combine_completion_data at hr
  rw [if_neg (fun h => hP h.1), if_neg hP, if_neg hI] at hr
  obtain ⟨r1, hr1, rfl⟩ := List.mem_map.mp (mem_chunkSorted.mp hr)
  obtain ⟨_, _, _, _, _, s6, s7, s8, s9⟩ := setActive_fields r1
  have hz1 : r1.oil_rate = 0 := by rw [← s7]; exact ho
  have hz2 : r1.water_rate = 0 := by rw [← s8]; exact hw
  have hz3 : r1.water_inj_rate = 0 := by rw [← s9]; exact hinj
  rw [s6]
  obtain ⟨r2, hr2, rfl⟩ := List.mem_map.mp hr1
  obtain ⟨_, _, _, _, _, _, t7, t8, t9⟩ := resolveCompDual_fields r2
  have hy1 : r2.oil_rate = 0 := by rw [← t7]; exact hz1
  have hy2 : r2.water_rate = 0 := by rw [← t8]; exact hz2
  have hy3 : r2.water_inj_rate = 0 := by rw [← t9]; exact hz3
  obtain ⟨q, hq, rfl⟩ := List.mem_map.mp hr2
  obtain ⟨_, _, _, _, _, _, u7, u8, u9⟩ := classifyCompRow_fields q
  have hx1 : q.oil_rate = 0 := by rw [← u7]; exact hy1
  have hx2 : q.water_rate = 0 := by rw [← u8]; exact hy2
  have hx3 : q.water_inj_rate = 0 := by rw [← u9]; exact hy3
  have hgp : ¬ hasProdComp q := by
    unfold hasProdComp
    rw [hx1, hx2]
    simp
  have hgi : ¬ hasInjComp q := by
    unfold hasInjComp
    rw [hx3]
    simp
  obtain ⟨ch, _, hqch⟩ := List.mem_flatMap.mp hq
  have hdef := (mergeOuterComp_defaults q hqch).1
  rw [classifyCompRow_of_gap hgp hgi]
  unfold resolveCompDual
  rw [if_neg (by rw [hdef]; simp), hdef]

theorem C3_no_completion_carry_forward_amended_witness :
    (⟨"W", "C", "UNKNOWN", 2020, 2, 0, .UNKNOWN, 0, 0, 0⟩ : CompStatus).well_type
      = .UNKNOWN ∧
    (⟨"W", "C", "UNKNOWN", 2020, 2, 0, .PRODUCTION, 0, 0, 0⟩ : CompStatus).well_type
      = .PRODUCTION ∧
    (⟨"W", "C", "UNKNOWN", 2020, 1, 1, .INJECTION, 0, 0, 1⟩ : CompStatus).well_type
      = .INJECTION :=
  ⟨(C3_no_completion_carry_forward_amended dsGapAfterProd).1 (by with_unfolding_all decide)
      (by with_unfolding_all decide) _ (by with_unfolding_all decide)
      (by with_unfolding_all decide) (by with_unfolding_all decide)
      (by with_unfolding_all decide),
    (C3_no_completion_carry_forward_amended dsInjEmpty).2.1 (by with_unfolding_all decide)
      (by with_unfolding_all decide) _ (by with_unfolding_all decide),
    (C3_no_completion_carry_forward_amended dsProdEmpty).2.2 (by with_unfolding_all decide)
      (by with_unfolding_all decide) _ (by with_unfolding_all decide)⟩

theorem filterMap_replicate_some {α β : Type} (f : α → Option β) (x : α) (y : β)
    (h : f x = some y) : ∀ n, (List.replicate n x).filterMap f = List.replicate n y := by
  intro n
  induction n with
  | zero => rfl
  | succ n ih =>
    rw [List.replicate_succ, List.filterMap_cons_some h, ih, List.replicate_succ]

theorem dedup_replicate {α : Type} [DecidableEq α] (a : α) :
    ∀ n, (List.replicate (n + 1) a).dedup = [a] := by
  intro n
  induction n with
  | zero =>
    rw [List.replicate_succ, List.replicate_zero,
      List.dedup_cons_of_not_mem (List.not_mem_nil a)]
    rfl
  | succ n ih =>
    rw [List.replicate_succ,
      List.dedup_cons_of_mem (List.mem_replicate.mpr ⟨Nat.succ_ne_zero n, rfl⟩)]
    exact ih

theorem groupCompProd_replicate (cr : CompRow) (n : ℕ) :
    groupCompProd (List.replicate (n + 1) cr)
      = [⟨cr.completion_name, cr.well_name, cr.reservoir, cr.year, cr.month,
          (n + 1) • cr.oil_rate, (n + 1) • cr.water_rate⟩] := by
  have hfil : (List.replicate (n + 1) cr).filter (fun x =>
      decide ((x.completion_name, x.well_name, x.reservoir, x.year, x.month)
        = (cr.completion_name, cr.well_name, cr.reservoir, cr.year, cr.month)))
      = List.replicate (n + 1) cr := by
    rw [List.filter_eq_self]
    intro a ha
    rw [List.eq_of_mem_replicate ha]
    simp
  unfold groupCompProd groupBySum
  rw [List.map_replicate]
  show (List.insertionSort (fun a b => ckeyLeB a b = true)
      (List.replicate (n + 1)
        (cr.completion_name, cr.well_name, cr.reservoir, cr.year, cr.month)).dedup).map _ = _
  rw [dedup_replicate]
  show [(⟨cr.completion_name, cr.well_name, cr.reservoir, cr.year, cr.month,
      (((List.replicate (n + 1) cr).filter (fun x =>
        decide ((x.completion_name, x.well_name, x.reservoir, x.year, x.month)
          = (cr.completion_name, cr.well_name, cr.reservoir, cr.year, cr.month)))).map
        CompRow.oil_rate).sum,
      (((List.replicate (n + 1) cr).filter (fun x =>
        decide ((x.completion_name, x.well_name, x.reservoir, x.year, x.month)
          = (cr.completion_name, cr.well_name, cr.reservoir, cr.year, cr.month)))).map
        CompRow.water_rate).sum⟩ : CompRow)] = _
  rw [hfil, List.map_replicate, List.map_replicate, List.sum_replicate, List.sum_replicate]

theorem chunksOf_replicate_10001 {α : Type} (a : α) :
    chunksOf chunk_size (List.replicate 10001 a) = [List.replicate 10000 a, [a]] := by
  have h1 : List.replicate 10001 a ≠ [] := by
    intro h
    have h2 := congrArg List.length h
    simp only [List.length_replicate, List.length_nil] at h2
    exact absurd h2 (by norm_num)
  have h3 : ([a] : List α) ≠ [] := by simp
  rw [chunksOf_cons chunk_size (by decide) _ h1, List.take_replicate, List.drop_replicate]
  have hmin : chunk_size ⊓ 10001 = 10000 := by decide
  have hsub : 10001 - chunk_size = 1 := by decide
  rw [hmin, hsub]
  rw [show List.replicate 1 a = [a] from rfl]
  rw [chunksOf_eq_single chunk_size (by decide) [a] h3
    (by rw [List.length_singleton]; decide)]

theorem filterMap_congr_some {α β : Type} (f : α → Option β) (g : α → β) :
    ∀ l : List α, (∀ x ∈ l, f x = some (g x)) → l.filterMap f = l.map g := by
  intro l
  induction l with
  | nil => intro _; rfl
  | cons x xs ih =>
    intro h
    rw [List.filterMap_cons_some (h x (List.mem_cons_self x xs)), List.map_cons,
      ih fun y hy => h y (List.mem_cons_of_mem x hy)]

theorem sublist_of_mem_chunksOf {α : Type} (k : ℕ) (hk : k ≠ 0) :
    ∀ (n : ℕ) (l : List α), l.length ≤ n → ∀ c ∈ chunksOf k l, c <+ l := by
  intro n
  induction n with
  | zero =>
    intro l h c hc
    have hnil : l = [] := List.eq_nil_of_length_eq_zero (Nat.le_zero.mp h)
    subst hnil
    rw [chunksOf_nil] at hc
    cases hc
  | succ n ih =>
    intro l h c hc
    by_cases hl : l = []
    · subst hl
      rw [chunksOf_nil] at hc
      cases hc
    · rw [chunksOf_cons k hk l hl] at hc
      rcases List.mem_cons.mp hc with rfl | hc2
      · exact List.take_sublist k l
      · have hlen : (l.drop k).length ≤ n := by
          have hnz : l.length ≠ 0 := fun hz => hl (List.eq_nil_of_length_eq_zero hz)
          simp only [List.length_drop]
          omega

        exact (ih (l.drop k) hlen c hc2).trans (List.drop_sublist k l)

theorem length_groupBySum_of_nodup {α K R : Type} [DecidableEq K] (leB : K → K → Bool)
    (key : α → K) (build : K → List α → R) (l : List α) (h : (l.map key).Nodup) :
    (groupBySum leB key build l).length = l.length := by
  unfold groupBySum
  rw [List.length_map, (List.perm_insertionSort _ _).length_eq, List.dedup_eq_self.mpr h,
    List.length_map]

theorem length_flatMap_congr {α β γ : Type} (f : α → List β) (g : α → List γ) :
    ∀ l : List α, (∀ c ∈ l, (f c).length = (g c).length) →
      (l.flatMap f).length = (l.flatMap g).length := by
  intro l
  induction l with
  | nil => intro _; rfl
  | cons c cs ih =>
    intro h
    rw [List.flatMap_cons, List.flatMap_cons, List.length_append, List.length_append,
      h c (List.mem_cons_self c cs), ih fun d hd => h d (List.mem_cons_of_mem c hd)]

theorem compSum_map_invariant (g : CompStatus → CompStatus)
    (hg : ∀ r, (g r).well_name = r.well_name ∧ (g r).year = r.year ∧
      (g r).month = r.month ∧ (g r).water_inj_rate = r.water_inj_rate)
    (l : List CompStatus) (w : String) (y m : ℕ) :
    compInjRateSum (l.map g) w y m = compInjRateSum l w y m := by
  unfold compInjRateSum
  rw [List.filter_map]
  have hp : ((fun r : CompStatus => decide (r.well_name = w ∧ r.year = y ∧ r.month = m)) ∘ g)
      = fun r : CompStatus => decide (r.well_name = w ∧ r.year = y ∧ r.month = m) := by
    funext r
    obtain ⟨a, b, c, _⟩ := hg r
    simp [Function.comp, a, b, c]
  rw [hp, List.map_map]
  have hv : (CompStatus.water_inj_rate ∘ g) = CompStatus.water_inj_rate := by
    funext r
    exact (hg r).2.2.2
  rw [hv]

theorem compSum_perm {l₁ l₂ : List CompStatus} (h : l₁ ~ l₂) (w : String) (y m : ℕ) :
    compInjRateSum l₁ w y m = compInjRateSum l₂ w y m := by
  unfold compInjRateSum
  exact ((h.filter _).map _).sum_eq

theorem compSum_append (l₁ l₂ : List CompStatus) (w : String) (y m : ℕ) :
    compInjRateSum (l₁ ++ l₂) w y m = compInjRateSum l₁ w y m + compInjRateSum l₂ w y m := by
  unfold compInjRateSum
  rw [List.filter_append, List.map_append, List.sum_append]

theorem compSum_flatMap {α : Type} (f : α → List CompStatus) (w : String) (y m : ℕ) :
    ∀ l : List α, compInjRateSum (l.flatMap f) w y m
      = (l.map fun c => compInjRateSum (f c) w y m).sum := by
  intro l
  induction l with
  | nil => rfl
  | cons c cs ih =>
    rw [List.flatMap_cons, compSum_append, ih, List.map_cons, List.sum_cons]

theorem compSum_nil_of_names (l : List CompStatus) (w : String) (y m : ℕ)
    (h : ∀ r ∈ l, r.well_name ≠ w) : compInjRateSum l w y m = 0 := by
  unfold compInjRateSum
  have hfil : l.filter (fun r => decide (r.well_name = w ∧ r.year = y ∧ r.month = m)) = [] := by
    rw [List.filter_eq_nil_iff]
    intro r hr
    simp only [decide_eq_true_eq, not_and]
    intro hw
    exact absurd hw (h r hr)
  rw [hfil]
  rfl

/-- Each production chunk whose rows all belong to completion C of well W,
outer-merged with the singleton V-injection table, contributes the V-row
exactly once. -/
theorem mergeOuterComp_V_chunk (ch : List CompRow)
    (hch : ∀ p ∈ ch, p.completion_name = "C" ∧ p.well_name = "W") :
    compInjRateSum (mergeOuterComp ch [⟨"K", "V", "UNKNOWN", 2020, 1, 1⟩]) "V" 2020 1
      = 1 := by
  unfold mergeOuterComp
  rw [compSum_append]
  have hleft : compInjRateSum (ch.flatMap fun p =>
      if ([(⟨"K", "V", "UNKNOWN", 2020, 1, 1⟩ : CompInjRow)].filter (compKeyMatches p)) = []
      then [prodOnlyCRow p]
      else ([(⟨"K", "V", "UNKNOWN", 2020, 1, 1⟩ : CompInjRow)].filter
        (compKeyMatches p)).map (joinedCRow p)) "V" 2020 1 = 0 := by
    rw [compSum_flatMap]
    apply List.sum_eq_zero
    intro v hv
    obtain ⟨p, hp, rfl⟩ := List.mem_map.mp hv
    apply compSum_nil_of_names
    intro r hr
    have hrw : r.well_name = p.well_name := by
      by_cases hf : ([(⟨"K", "V", "UNKNOWN", 2020, 1, 1⟩ : CompInjRow)].filter
          (compKeyMatches p)) = []
      · rw [if_pos hf] at hr
        rw [List.mem_singleton.mp hr]
        rfl
      · rw [if_neg hf] at hr
        obtain ⟨i, _, rfl⟩ := List.mem_map.mp hr
        rfl
    rw [hrw, (hch p hp).2]
    decide
  have hany : (ch.any fun p =>
      compKeyMatches p (⟨"K", "V", "UNKNOWN", 2020, 1, 1⟩ : CompInjRow)) = false := by
    rw [List.any_eq_false]
    intro p hp
    unfold compKeyMatches
    rw [(hch p hp).1]
    simp
  have hfil : ([(⟨"K", "V", "UNKNOWN", 2020, 1, 1⟩ : CompInjRow)].filter
      fun i => !(ch.any fun p => compKeyMatches p i))
      = [(⟨"K", "V", "UNKNOWN", 2020, 1, 1⟩ : CompInjRow)] := by
    rw [List.filter_cons, hany]
    rfl
  rw [hleft, hfil, zero_add]
  with_unfolding_all decide

theorem C4_completion_side :
    compInjRateSum (calculate_completion_status dsTwoChunks) "V" 2020 1 = 2 := by
  have hdata : dsTwoChunks.production_data = (List.range 10001).map prTwo := by
    simp only [dsTwoChunks]
  have hrows : dsTwoChunks.production_data.filterMap
      (mapCompProdRow dsTwoChunks.well_to_completions dsTwoChunks.completion_to_reservoir)
      = (List.range 10001).map crTwo := by
    rw [hdata, List.filterMap_map]
    exact filterMap_congr_some _ _ _ (fun i _ => rfl)
  have hne_rows : (List.range 10001).map crTwo ≠ [] := by
    intro h
    have h2 := congrArg List.length h
    rw [List.length_map, List.length_range, List.length_nil] at h2
    exact absurd h2 (by norm_num)
  have hPne_data : dsTwoChunks.production_data ≠ [] := by
    rw [hdata]
    intro h
    have h2 := congrArg List.length h
    rw [List.length_map, List.length_range, List.length_nil] at h2
    exact absurd h2 (by norm_num)
  have hP : process_completion_production_data dsTwoChunks
      = (chunksOf chunk_size ((List.range 10001).map crTwo)).flatMap groupCompProd := by
    unfold process_completion_production_data
    rw [if_neg hPne_data]
    show (if (dsTwoChunks.production_data.filterMap
          (mapCompProdRow dsTwoChunks.well_to_completions dsTwoChunks.completion_to_reservoir))
          = [] then []
        else (chunksOf chunk_size (dsTwoChunks.production_data.filterMap
          (mapCompProdRow dsTwoChunks.well_to_completions
            dsTwoChunks.completion_to_reservoir))).flatMap groupCompProd) = _
    rw [hrows, if_neg hne_rows]
  have hkeys : (((List.range 10001).map crTwo).map
      (fun r : CompRow =>
        (r.completion_name, r.well_name, r.reservoir, r.year, r.month))).Nodup := by
    rw [List.map_map]
    have hcomp : ((fun r : CompRow =>
        (r.completion_name, r.well_name, r.reservoir, r.year, r.month)) ∘ crTwo)
        = fun i : ℕ => (("C" : String), ("W" : String), ("UNKNOWN" : String), i, 1) := by
      funext i
      rfl
    rw [hcomp]
    exact (List.nodup_range 10001).map (fun a b hab => by simpa using hab)
  have hchunk_keys : ∀ c ∈ chunksOf chunk_size ((List.range 10001).map crTwo),
      (c.map (fun r : CompRow =>
        (r.completion_name, r.well_name, r.reservoir, r.year, r.month))).Nodup := by
    intro c hc
    have hsub := sublist_of_mem_chunksOf chunk_size (by decide)
      ((List.range 10001).map crTwo).length _ le_rfl c hc
    exact List.Nodup.sublist (List.Sublist.map _ hsub) hkeys
  have hPlen : (process_completion_production_data dsTwoChunks).length = 10001 := by
    rw [hP]
    have hcongr := length_flatMap_congr groupCompProd (fun c => c)
      (chunksOf chunk_size ((List.range 10001).map crTwo))
      (fun c hc => by
        show (groupCompProd c).length = c.length
        unfold groupCompProd
        exact length_groupBySum_of_nodup _ _ _ _ (hchunk_keys c hc))
    rw [hcongr,
      (chunksOf_flatMap_perm chunk_size (by decide) (fun c => c)
        (fun c => List.Perm.refl c) _).length_eq,
      List.length_map, List.length_range]
  have hPmem : ∀ p ∈ process_completion_production_data dsTwoChunks,
      p.completion_name = "C" ∧ p.well_name = "W" := by
    intro p hp
    rw [hP] at hp
    obtain ⟨c, hc, hpc⟩ := List.mem_flatMap.mp hp
    unfold groupCompProd at hpc
    obtain ⟨k, hk, rfl⟩ := mem_groupBySum_iff.mp hpc
    obtain ⟨x, hx, rfl⟩ := List.mem_map.mp hk
    have hsub := sublist_of_mem_chunksOf chunk_size (by decide)
      ((List.range 10001).map crTwo).length _ le_rfl c hc
    have hxrows : x ∈ (List.range 10001).map crTwo := hsub.subset hx
    obtain ⟨i, _, rfl⟩ := List.mem_map.mp hxrows
    exact ⟨rfl, rfl⟩
  have hPne : process_completion_production_data dsTwoChunks ≠ [] :=
    List.ne_nil_of_length_pos (by rw [hPlen]; norm_num)
  have hdropne : (process_completion_production_data dsTwoChunks).drop chunk_size ≠ [] := by
    apply List.ne_nil_of_length_pos
    rw [List.length_drop, hPlen]
    decide
  have hchunksP : chunksOf chunk_size (process_completion_production_data dsTwoChunks)
      = [(process_completion_production_data dsTwoChunks).take chunk_size,
         (process_completion_production_data dsTwoChunks).drop chunk_size] := by
    rw [chunksOf_cons chunk_size (by decide) _ hPne,
      chunksOf_eq_single chunk_size (by decide) _ hdropne
        (by rw [List.length_drop, hPlen]; decide)]
  have hIc : process_completion_injection_data dsTwoChunks
      = [⟨"K", "V", "UNKNOWN", 2020, 1, 1⟩] := by
    with_unfolding_all decide
  have hset : ∀ r : CompStatus, (setActive r).well_name = r.well_name
      ∧ (setActive r).year = r.year ∧ (setActive r).month = r.month
      ∧ (setActive r).water_inj_rate = r.water_inj_rate := by
    intro r
    obtain ⟨s1, _, _, s4, s5, _, _, _, s9⟩ := setActive_fields r
    exact ⟨s1, s4, s5, s9⟩
  have hres : ∀ r : CompStatus, (resolveCompDual r).well_name = r.well_name
      ∧ (resolveCompDual r).year = r.year ∧ (resolveCompDual r).month = r.month
      ∧ (resolveCompDual r).water_inj_rate = r.water_inj_rate := by
    intro r
    obtain ⟨s1, _, _, s4, s5, _, _, _, s9⟩ := resolveCompDual_fields r
    exact ⟨s1, s4, s5, s9⟩
  have hcls : ∀ r : CompStatus, (classifyCompRow r).well_name = r.well_name
      ∧ (classifyCompRow r).year = r.year ∧ (classifyCompRow r).month = r.month
      ∧ (classifyCompRow r).water_inj_rate = r.water_inj_rate := by
    intro r
    obtain ⟨s1, _, _, s4, s5, _, _, _, s9⟩ := classifyCompRow_fields r
    exact ⟨s1, s4, s5, s9⟩
  unfold calculate_completion_status combine_completion_data
  rw [hIc]
  rw [if_neg (fun h => hPne h.1), if_neg hPne, if_neg (List.cons_ne_nil _ _)]
  rw [compSum_perm (chunksOf_flatMap_perm chunk_size (by decide)
    (List.insertionSort fun a b => compSortLeB a b = true)
    (fun c => List.perm_insertionSort _ _) _)]
  rw [compSum_map_invariant setActive hset, compSum_map_invariant resolveCompDual hres]
  unfold completionClassified
  rw [compSum_map_invariant classifyCompRow hcls]
  unfold completionMergedChunks
  rw [hchunksP, compSum_flatMap, List.map_cons, List.map_cons, List.map_nil,
    List.sum_cons, List.sum_cons, List.sum_nil]
  show compInjRateSum (mergeOuterComp
        ((process_completion_production_data dsTwoChunks).take chunk_size)
        [⟨"K", "V", "UNKNOWN", 2020, 1, 1⟩]) "V" 2020 1
      + (compInjRateSum (mergeOuterComp
        ((process_completion_production_data dsTwoChunks).drop chunk_size)
        [⟨"K", "V", "UNKNOWN", 2020, 1, 1⟩]) "V" 2020 1 + 0) = 2
  rw [mergeOuterComp_V_chunk _ (fun p hp => hPmem p (List.take_subset _ _ hp)),
    mergeOuterComp_V_chunk _ (fun p hp => hPmem p (List.drop_subset _ _ hp))]
  norm_num

theorem resolveDual_fields (r : MRow) :
    (resolveDual r).well_name = r.well_name ∧ (resolveDual r).year = r.year ∧
    (resolveDual r).month = r.month ∧ (resolveDual r).water_inj_rate = r.water_inj_rate := by
  unfold resolveDual
  split_ifs <;> exact ⟨rfl, rfl, rfl, rfl⟩

theorem wSum_map_invariant (g : MRow → MRow)
    (hg : ∀ r, (g r).well_name = r.well_name ∧ (g r).year = r.year ∧
      (g r).month = r.month ∧ (g r).water_inj_rate = r.water_inj_rate)
    (l : List MRow) (w : String) (y m : ℕ) :
    wellInjRateAt (l.map g) w y m = wellInjRateAt l w y m := by
  unfold wellInjRateAt
  rw [List.filter_map]
  have hp : ((fun r : MRow => decide (r.well_name = w ∧ r.year = y ∧ r.month = m)) ∘ g)
      = fun r : MRow => decide (r.well_name = w ∧ r.year = y ∧ r.month = m) := by
    funext r
    obtain ⟨a, b, c, _⟩ := hg r
    simp [Function.comp, a, b, c]
  rw [hp, List.map_map]
  have hv : (MRow.water_inj_rate ∘ g) = MRow.water_inj_rate := by
    funext r
    exact (hg r).2.2.2
  rw [hv]

theorem wSum_perm {l₁ l₂ : List MRow} (h : l₁ ~ l₂) (w : String) (y m : ℕ) :
    wellInjRateAt l₁ w y m = wellInjRateAt l₂ w y m := by
  unfold wellInjRateAt
  exact ((h.filter _).map _).sum_eq

theorem wSum_append (l₁ l₂ : List MRow) (w : String) (y m : ℕ) :
    wellInjRateAt (l₁ ++ l₂) w y m = wellInjRateAt l₁ w y m + wellInjRateAt l₂ w y m := by
  unfold wellInjRateAt
  rw [List.filter_append, List.map_append, List.sum_append]

theorem wSum_flatMap {α : Type} (f : α → List MRow) (w : String) (y m : ℕ) :
    ∀ l : List α, wellInjRateAt (l.flatMap f) w y m
      = (l.map fun c => wellInjRateAt (f c) w y m).sum := by
  intro l
  induction l with
  | nil => rfl
  | cons c cs ih =>
    rw [List.flatMap_cons, wSum_append, ih, List.map_cons, List.sum_cons]

theorem wSum_nil_of_names (l : List MRow) (w : String) (y m : ℕ)
    (h : ∀ r ∈ l, r.well_name ≠ w) : wellInjRateAt l w y m = 0 := by
  unfold wellInjRateAt
  have hfil : l.filter (fun r => decide (r.well_name = w ∧ r.year = y ∧ r.month = m)) = [] := by
    rw [List.filter_eq_nil_iff]
    intro r hr
    simp only [decide_eq_true_eq, not_and]
    intro hw
    exact absurd hw (h r hr)
  rw [hfil]
  rfl

theorem wSum_eq_of_core_eq :
    ∀ (l₁ l₂ : List MRow), l₁.map MRow.core = l₂.map MRow.core →
      ∀ (w : String) (y m : ℕ), wellInjRateAt l₁ w y m = wellInjRateAt l₂ w y m := by
  intro l₁
  induction l₁ with
  | nil =>
    intro l₂ h w y m
    cases l₂ with
    | nil => rfl
    | cons b bs => simp at h
  | cons a as ih =>
    intro l₂ h w y m
    cases l₂ with
    | nil => simp at h
    | cons b bs =>
      rw [List.map_cons, List.map_cons] at h
      injection h with hab htail
      obtain ⟨n1, n2, n3, _, _, n6, _⟩ := core_eq_iff.mp hab
      unfold wellInjRateAt
      rw [List.filter_cons, List.filter_cons]
      by_cases hc : a.well_name = w ∧ a.year = y ∧ a.month = m
      · have hcb : b.well_name = w ∧ b.year = y ∧ b.month = m := by
          rw [← n1, ← n2, ← n3]
          exact hc
        rw [if_pos (decide_eq_true hc), if_pos (decide_eq_true hcb),
          List.map_cons, List.map_cons, List.sum_cons, List.sum_cons, n6]
        have hrec := ih bs htail w y m
        unfold wellInjRateAt at hrec
        rw [hrec]
      · have hcb : ¬ (b.well_name = w ∧ b.year = y ∧ b.month = m) := by
          rw [← n1, ← n2, ← n3]
          exact hc
        rw [if_neg (by simp only [decide_eq_true_eq]; exact hc),
          if_neg (by simp only [decide_eq_true_eq]; exact hcb)]
        have hrec := ih bs htail w y m
        unfold wellInjRateAt at hrec
        exact hrec

theorem C4_well_side :
    wellInjRateAt (calculate_monthly_well_types dsTwoChunks) "V" 2020 1 = 1 := by
  have hdata : dsTwoChunks.production_data = (List.range 10001).map prTwo := by
    simp only [dsTwoChunks]
  have hrows : dsTwoChunks.production_data.filterMap
      (mapProdRow dsTwoChunks.well_to_completions)
      = (List.range 10001).map pmTwo := by
    rw [hdata, List.filterMap_map]
    exact filterMap_congr_some _ _ _ (fun i _ => rfl)
  have hPne_data : dsTwoChunks.production_data ≠ [] := by
    rw [hdata]
    intro h
    have h2 := congrArg List.length h
    rw [List.length_map, List.length_range, List.length_nil] at h2
    exact absurd h2 (by norm_num)
  have hPw : process_production_data dsTwoChunks
      = groupProdMonthly ((List.range 10001).map pmTwo) := by
    unfold process_production_data
    rw [if_neg hPne_data, hrows]
  have hkeysw : (((List.range 10001).map pmTwo).map
      (fun r : ProdMonthly => (r.well_name, r.year, r.month))).Nodup := by
    rw [List.map_map]
    have hcomp : ((fun r : ProdMonthly => (r.well_name, r.year, r.month)) ∘ pmTwo)
        = fun i : ℕ => (("W" : String), i, 1) := by
      funext i
      rfl
    rw [hcomp]
    exact (List.nodup_range 10001).map (fun a b hab => by simpa using hab)
  have hPwmem : ∀ p ∈ process_production_data dsTwoChunks, p.well_name = "W" := by
    intro p hp
    rw [hPw] at hp
    unfold groupProdMonthly at hp
    obtain ⟨k, hk, rfl⟩ := mem_groupBySum_iff.mp hp
    obtain ⟨x, hx, rfl⟩ := List.mem_map.mp hk
    obtain ⟨i, _, rfl⟩ := List.mem_map.mp hx
    rfl
  have hPwne : process_production_data dsTwoChunks ≠ [] := by
    apply List.ne_nil_of_length_pos
    rw [hPw]
    unfold groupProdMonthly
    rw [length_groupBySum_of_nodup _ _ _ _ hkeysw, List.length_map, List.length_range]
    norm_num
  have hIw : process_injection_data dsTwoChunks = [⟨"V", 2020, 1, 1⟩] := by
    with_unfolding_all decide
  have hIwne : process_injection_data dsTwoChunks ≠ [] := by
    rw [hIw]
    exact List.cons_ne_nil _ _
  have hclsw : ∀ r : MRow, (classifyRow r).well_name = r.well_name
      ∧ (classifyRow r).year = r.year ∧ (classifyRow r).month = r.month
      ∧ (classifyRow r).water_inj_rate = r.water_inj_rate := by
    intro r
    obtain ⟨c1, c2, c3, _, _, c6⟩ := classifyRow_fields r
    exact ⟨c1, c2, c3, c6⟩
  unfold calculate_monthly_well_types
  rw [wSum_map_invariant resolveDual resolveDual_fields]
  unfold combinedMonthly combine_and_classify_data
  rw [if_neg (fun h => hPwne h.1), if_neg hPwne, if_neg hIwne]
  rw [wSum_perm (List.perm_insertionSort _ _)]
  unfold carryForwardStage
  rw [wSum_eq_of_core_eq _ _ (foldl_processWell_core _ _ _) "V" 2020 1]
  rw [wSum_map_invariant classifyRow hclsw]
  rw [hIw]
  unfold mergeOuterWell
  rw [wSum_append]
  have hleft : wellInjRateAt ((process_production_data dsTwoChunks).flatMap fun p =>
      if ([(⟨"V", 2020, 1, 1⟩ : InjMonthly)].filter (wellKeyMatches p)) = []
      then [prodOnlyMRow p]
      else ([(⟨"V", 2020, 1, 1⟩ : InjMonthly)].filter (wellKeyMatches p)).map (joinedMRow p))
      "V" 2020 1 = 0 := by
    rw [wSum_flatMap]
    apply List.sum_eq_zero
    intro v hv
    obtain ⟨p, hp, rfl⟩ := List.mem_map.mp hv
    apply wSum_nil_of_names
    intro r hr
    have hrw : r.well_name = p.well_name := by
      by_cases hf : ([(⟨"V", 2020, 1, 1⟩ : InjMonthly)].filter (wellKeyMatches p)) = []
      · rw [if_pos hf] at hr
        rw [List.mem_singleton.mp hr]
        rfl
      · rw [if_neg hf] at hr
        obtain ⟨i, _, rfl⟩ := List.mem_map.mp hr
        rfl
    rw [hrw, hPwmem p hp]
    decide
  have hany : ((process_production_data dsTwoChunks).any fun p =>
      wellKeyMatches p (⟨"V", 2020, 1, 1⟩ : InjMonthly)) = false := by
    rw [List.any_eq_false]
    intro p hp
    unfold wellKeyMatches
    rw [hPwmem p hp]
    simp
  have hfil : ([(⟨"V", 2020, 1, 1⟩ : InjMonthly)].filter
      fun i => !((process_production_data dsTwoChunks).any fun p => wellKeyMatches p i))
      = [(⟨"V", 2020, 1, 1⟩ : InjMonthly)] := by
    rw [List.filter_cons, hany]
    rfl
  rw [hleft, hfil, zero_add]
  with_unfolding_all decide

/-- C4 (code bug): granularity consistency fails.  On dsTwoChunks the
completion-level injection total of well V for month (2020, 1) is 2 — the
chunked outer merge re-joins the full injection table with each of the two
production chunks and so duplicates the injection-only row — while the
well-level injection rate for the same well and month is 1. -/
theorem C4_granularity_inconsistency :
    compInjRateSum (calculate_completion_status dsTwoChunks) "V" 2020 1 = 2 ∧
    wellInjRateAt (calculate_monthly_well_types dsTwoChunks) "V" 2020 1 = 1 ∧
    compInjRateSum (calculate_completion_status dsTwoChunks) "V" 2020 1
      ≠ wellInjRateAt (calculate_monthly_well_types dsTwoChunks) "V" 2020 1 := by
  refine ⟨C4_completion_side, C4_well_side, ?_⟩
  rw [C4_completion_side, C4_well_side]
  norm_num

/-- C5: chunking is NOT output-invariant.  On dsOneGroup (10001 readings of
one completion-month) the chunked pipeline emits two rows for the single
(completion, year, month) group, splitting its aggregated rate 10001 into
10000 and 1, while the same pipeline run with one chunk covering all rows
emits the single correctly aggregated row — the two result tables differ. -/
theorem C5_chunked_grouping_diverges :
    process_completion_production_data dsOneGroup
      = [⟨"C", "W", "UNKNOWN", 2020, 1, 10000, 0⟩, ⟨"C", "W", "UNKNOWN", 2020, 1, 1, 0⟩] ∧
    process_completion_production_data_single_chunk dsOneGroup
      = [⟨"C", "W", "UNKNOWN", 2020, 1, 10001, 0⟩] ∧
    process_completion_production_data dsOneGroup
      ≠ process_completion_production_data_single_chunk dsOneGroup := by
  have hmap : mapCompProdRow dsOneGroup.well_to_completions dsOneGroup.completion_to_reservoir
      (⟨"C", 2020, 1, 31, 0⟩ : ProdRow)
      = some (⟨"C", "W", "UNKNOWN", 2020, 1, 1, 0⟩ : CompRow) := by
    with_unfolding_all decide
  have hrows : dsOneGroup.production_data.filterMap
      (mapCompProdRow dsOneGroup.well_to_completions dsOneGroup.completion_to_reservoir)
      = List.replicate 10001 (⟨"C", "W", "UNKNOWN", 2020, 1, 1, 0⟩ : CompRow) := by
    rw [show dsOneGroup.production_data
        = List.replicate 10001 (⟨"C", 2020, 1, 31, 0⟩ : ProdRow) from rfl]
    exact filterMap_replicate_some _ _ _ hmap 10001
  have hPne : dsOneGroup.production_data ≠ [] := by
    intro h
    have h2 := congrArg List.length h
    rw [show dsOneGroup.production_data
        = List.replicate 10001 (⟨"C", 2020, 1, 31, 0⟩ : ProdRow) from rfl] at h2
    simp only [List.length_replicate, List.length_nil] at h2
    exact absurd h2 (by norm_num)
  have hRne : List.replicate 10001 (⟨"C", "W", "UNKNOWN", 2020, 1, 1, 0⟩ : CompRow) ≠ [] := by
    intro h
    have h2 := congrArg List.length h
    simp only [List.length_replicate, List.length_nil] at h2
    exact absurd h2 (by norm_num)
  have hg1 : groupCompProd [(⟨"C", "W", "UNKNOWN", 2020, 1, 1, 0⟩ : CompRow)]
      = [(⟨"C", "W", "UNKNOWN", 2020, 1, 1, 0⟩ : CompRow)] := by
    with_unfolding_all decide
  have hv1 : ((9999 : ℕ) + 1) • ((⟨"C", "W", "UNKNOWN", 2020, 1, 1, 0⟩ : CompRow).oil_rate)
      = (10000 : ℚ) := by
    show ((9999 : ℕ) + 1) • (1 : ℚ) = 10000
    rw [nsmul_eq_mul, mul_one]
    norm_num
  have hv2 : ((9999 : ℕ) + 1) • ((⟨"C", "W", "UNKNOWN", 2020, 1, 1, 0⟩ : CompRow).water_rate)
      = (0 : ℚ) := by
    show ((9999 : ℕ) + 1) • (0 : ℚ) = 0
    exact smul_zero _
  have hw1 : ((10000 : ℕ) + 1) • ((⟨"C", "W", "UNKNOWN", 2020, 1, 1, 0⟩ : CompRow).oil_rate)
      = (10001 : ℚ) := by
    show ((10000 : ℕ) + 1) • (1 : ℚ) = 10001
    rw [nsmul_eq_mul, mul_one]
    norm_num
  have hw2 : ((10000 : ℕ) + 1) • ((⟨"C", "W", "UNKNOWN", 2020, 1, 1, 0⟩ : CompRow).water_rate)
      = (0 : ℚ) := by
    show ((10000 : ℕ) + 1) • (0 : ℚ) = 0
    exact smul_zero _
  have hchunked : process_completion_production_data dsOneGroup
      = [⟨"C", "W", "UNKNOWN", 2020, 1, 10000, 0⟩, ⟨"C", "W", "UNKNOWN", 2020, 1, 1, 0⟩] := by
    unfold process_completion_production_data
    rw [if_neg hPne]
    show (if (dsOneGroup.production_data.filterMap
          (mapCompProdRow dsOneGroup.well_to_completions dsOneGroup.completion_to_reservoir))
          = [] then []
        else (chunksOf chunk_size (dsOneGroup.production_data.filterMap
          (mapCompProdRow dsOneGroup.well_to_completions
            dsOneGroup.completion_to_reservoir))).flatMap groupCompProd) = _
    rw [hrows, if_neg hRne, chunksOf_replicate_10001, List.flatMap_cons, List.flatMap_cons,
      List.flatMap_nil, List.append_nil]
    rw [show List.replicate 10000 (⟨"C", "W", "UNKNOWN", 2020, 1, 1, 0⟩ : CompRow)
        = List.replicate (9999 + 1) (⟨"C", "W", "UNKNOWN", 2020, 1, 1, 0⟩ : CompRow) from rfl]
    rw [groupCompProd_replicate, hg1, hv1, hv2]
    rfl
  have hsingle : process_completion_production_data_single_chunk dsOneGroup
      = [⟨"C", "W", "UNKNOWN", 2020, 1, 10001, 0⟩] := by
    unfold process_completion_production_data_single_chunk
    rw [if_neg hPne]
    show (if (dsOneGroup.production_data.filterMap
          (mapCompProdRow dsOneGroup.well_to_completions dsOneGroup.completion_to_reservoir))
          = [] then []
        else ([dsOneGroup.production_data.filterMap
          (mapCompProdRow dsOneGroup.well_to_completions dsOneGroup.completion_to_reservoir)]
            : List (List CompRow)).flatMap groupCompProd) = _
    rw [hrows, if_neg hRne, List.flatMap_cons, List.flatMap_nil, List.append_nil]
    rw [show List.replicate 10001 (⟨"C", "W", "UNKNOWN", 2020, 1, 1, 0⟩ : CompRow)
        = List.replicate (10000 + 1) (⟨"C", "W", "UNKNOWN", 2020, 1, 1, 0⟩ : CompRow) from rfl]
    rw [groupCompProd_replicate, hw1, hw2]
  refine ⟨hchunked, hsingle, ?_⟩
  rw [hchunked, hsingle]
  with_unfolding_all decide

theorem C1_merged_branch (ds : DataStore) (r : MRow) (hr : r ∈ combinedMonthly ds)
    (h1 : r.oil_rate = 0) (h2 : r.water_rate = 0) (h3 : r.water_inj_rate = 0)
    (hP : process_production_data ds ≠ []) (hI : process_injection_data ds ≠ []) :
    (∃ s ∈ combinedMonthly ds, s.well_name = r.well_name ∧
      (0 < s.oil_rate ∨ 0 < s.water_rate ∨ 0 < s.water_inj_rate) ∧ ymLt s.ym r.ym ∧
      (∀ t ∈ combinedMonthly ds, t.well_name = r.well_name →
        (0 < t.oil_rate ∨ 0 < t.water_rate ∨ 0 < t.water_inj_rate) → ymLt t.ym r.ym →
        ymLe t.ym s.ym) ∧
      r.well_type = observedMode s.oil_rate s.water_rate s.water_inj_rate) ∨
    ((∀ t ∈ combinedMonthly ds, t.well_name = r.well_name →
        (0 < t.oil_rate ∨ 0 < t.water_rate ∨ 0 < t.water_inj_rate) → ¬ ymLt t.ym r.ym) ∧
      r.well_type = WellType.UNKNOWN) := by
  have hmem : ∀ x : MRow, x ∈ combinedMonthly ds ↔
      x ∈ carryForwardStage
        (calculate_historical_well_types (process_production_data ds)
          (process_injection_data ds))
        ((mergeOuterWell (process_production_data ds) (process_injection_data ds)).map
          classifyRow) := by
    intro x
    unfold combinedMonthly combine_and_classify_data
    rw [if_neg (fun h => hP h.1), if_neg hP, if_neg hI, List.mem_insertionSort]
  set H := calculate_historical_well_types (process_production_data ds)
    (process_injection_data ds) with hH
  set C := (mergeOuterWell (process_production_data ds) (process_injection_data ds)).map
    classifyRow with hC
  have hr' : r ∈ carryForwardStage H C := (hmem r).mp hr
  unfold carryForwardStage at hr'
  obtain ⟨r₀, hr₀C, hcore⟩ := exists_core_of_mem_foldl hr'
  obtain ⟨e1, e2, e3, e4, e5, e6, e7⟩ := core_eq_iff.mp hcore
  have hgap₀ : ¬ hasProdRow r₀ ∧ ¬ hasInjRow r₀ := by
    unfold hasProdRow hasInjRow
    rw [e4, e5, e6, h1, h2, h3]
    simp
  have hwgap : r.well_name ∈ wellsWithGap C := mem_wellsWithGap.mpr ⟨r₀, hr₀C, e1, hgap₀⟩
  have hfold := (wellRows_foldl H r.well_name (wellsWithGap C) (List.nodup_dedup _) C).2 hwgap
  have hrW : r ∈ wellRows ((wellsWithGap C).foldl (processWell H) C) r.well_name :=
    mem_wellRows.mpr ⟨hr', rfl⟩
  rw [hfold] at hrW
  obtain ⟨r₁, hr₁, hreq⟩ := List.mem_map.mp hrW
  obtain ⟨hr₁C, hr₁w⟩ := mem_wellRows.mp hr₁
  obtain ⟨f1, f2, f3, f4, f5, f6, f7⟩ :=
    applyWalkRow_fields r.well_name (assignsOf H C r.well_name) r₁
  rw [hreq] at f1 f2 f3 f4 f5 f6 f7
  have hz₁ : r₁.oil_rate = 0 ∧ r₁.water_rate = 0 ∧ r₁.water_inj_rate = 0 :=
    ⟨by rw [← f4]; exact h1, by rw [← f5]; exact h2, by rw [← f6]; exact h3⟩
  have hgap₁p : ¬ hasProdRow r₁ := by
    unfold hasProdRow
    rw [hz₁.1, hz₁.2.1]
    simp
  have hgap₁i : ¬ hasInjRow r₁ := by
    unfold hasInjRow
    rw [hz₁.2.2]
    simp
  have hym₁ : r.ym = r₁.ym := by
    unfold MRow.ym
    rw [f2, f3]
  have hCnodup : (C.map MRow.mkey).Nodup := by
    rw [hC]
    exact classified_keys_nodup (process_production_keys_nodup ds)
      (process_injection_keys_nodup ds)
  have hLnodup : ((sortChrono (wellRows C r.well_name)).map MRow.ym).Nodup :=
    (((sortChrono_perm (wellRows C r.well_name)).map MRow.ym).nodup_iff).mpr
      (wellRows_ym_nodup hCnodup r.well_name)
  have hLsort := sortChrono_sorted (wellRows C r.well_name)
  have hr₁L : r₁ ∈ sortChrono (wellRows C r.well_name) := by
    rw [(sortChrono_perm _).mem_iff]
    exact hr₁
  have hA : assignsOf H C r.well_name
      = walkSteps (wellSeed H (sortChrono (wellRows C r.well_name)) r.well_name)
          (sortChrono (wellRows C r.well_name)) := rfl
  have hpredeq : ((assignsOf H C r.well_name).find? fun u =>
        decide (u.1 = (r₁.year, r₁.month)))
      = ((assignsOf H C r.well_name).find? fun u => decide (u.1 = r₁.ym)) := rfl
  obtain ⟨q, hqM, hqe⟩ : ∃ q ∈ mergeOuterWell (process_production_data ds)
      (process_injection_data ds), classifyRow q = r₁ := by
    rw [hC] at hr₁C
    obtain ⟨q, hq, hqe⟩ := List.mem_map.mp hr₁C
    exact ⟨q, hq, hqe⟩
  have hqname : q.well_name = r.well_name := by
    have hc := (classifyRow_fields q).1
    rw [hqe] at hc
    rw [← hc]
    exact hr₁w
  have hwalk := walkSteps_find_gap (sortChrono (wellRows C r.well_name))
    (wellSeed H (sortChrono (wellRows C r.well_name)) r.well_name)
    hLsort hLnodup r₁ hr₁L hgap₁p hgap₁i
  have htrans : ∀ t ∈ combinedMonthly ds, t.well_name = r.well_name →
      (0 < t.oil_rate ∨ 0 < t.water_rate ∨ 0 < t.water_inj_rate) → ymLt t.ym r.ym →
      ∃ t₁ ∈ (sortChrono (wellRows C r.well_name)).filter
        (fun x => decide ((hasProdRow x ∨ hasInjRow x) ∧ ymLt x.ym r₁.ym)), t₁.ym = t.ym := by
    intro t ht htw hto htlt
    have ht' : t ∈ carryForwardStage H C := (hmem t).mp ht
    unfold carryForwardStage at ht'
    have htW : t ∈ wellRows ((wellsWithGap C).foldl (processWell H) C) r.well_name :=
      mem_wellRows.mpr ⟨ht', htw⟩
    rw [hfold] at htW
    obtain ⟨t₁, ht₁, hteq⟩ := List.mem_map.mp htW
    obtain ⟨ht₁C, ht₁w⟩ := mem_wellRows.mp ht₁
    obtain ⟨g1, g2, g3, g4, g5, g6, g7⟩ :=
      applyWalkRow_fields r.well_name (assignsOf H C r.well_name) t₁
    rw [hteq] at g1 g2 g3 g4 g5 g6 g7
    have htym : t₁.ym = t.ym := by
      unfold MRow.ym
      rw [← g2, ← g3]
    have htobs : hasProdRow t₁ ∨ hasInjRow t₁ := by
      rw [g4, g5, g6] at hto
      unfold hasProdRow hasInjRow
      tauto
    refine ⟨t₁, List.mem_filter.mpr ⟨?_, ?_⟩, htym⟩
    · rw [(sortChrono_perm _).mem_iff]
      exact ht₁
    · apply decide_eq_true
      refine ⟨htobs, ?_⟩
      rw [htym, ← hym₁]
      exact htlt
  cases hlast : lastObserved (sortChrono (wellRows C r.well_name)) r₁.ym with
  | some s =>
    rw [hlast] at hwalk
    rw [← hA] at hwalk
    simp only [Option.elim_some] at hwalk
    obtain ⟨e, hfind, hesnd⟩ := Option.map_eq_some'.mp hwalk
    have hwt : r.well_type = observedMode s.oil_rate s.water_rate s.water_inj_rate := by
      rw [← hreq]
      unfold applyWalkRow
      rw [if_pos hr₁w, hpredeq, hfind]
      exact hesnd
    have hlast' := hlast
    unfold lastObserved at hlast'
    have hsmemF : s ∈ (sortChrono (wellRows C r.well_name)).filter
        (fun x => decide ((hasProdRow x ∨ hasInjRow x) ∧ ymLt x.ym r₁.ym)) :=
      List.mem_of_mem_getLast? (by rw [hlast']; rfl)
    obtain ⟨hsL, hspred⟩ := List.mem_filter.mp hsmemF
    have hsprop : (hasProdRow s ∨ hasInjRow s) ∧ ymLt s.ym r₁.ym := of_decide_eq_true hspred
    have hsW : s ∈ wellRows C r.well_name := (sortChrono_perm _).mem_iff.mp hsL
    obtain ⟨hsC, hsw⟩ := mem_wellRows.mp hsW
    have hsfix : applyWalkRow r.well_name (assignsOf H C r.well_name) s = s := by
      unfold applyWalkRow
      rw [if_pos hsw]
      have hnone : ((assignsOf H C r.well_name).find? fun u =>
          decide (u.1 = (s.year, s.month))) = none := by
        rw [List.find?_eq_none]
        intro e' he'
        rw [hA] at he'
        obtain ⟨x, hx, hxgap, hxym⟩ := walkSteps_ym_mem he'
        simp only [decide_eq_true_eq]
        intro hcontra
        have hxs : x.ym = s.ym := by
          show (x.year, x.month) = (s.year, s.month)
          rw [← hxym]
          exact hcontra
        have hxeq : x = s := List.inj_on_of_nodup_map hLnodup hx hsL hxs
        subst hxeq
        rcases hsprop.1 with h | h
        · exact hxgap.1 h
        · exact hxgap.2 h
      rw [hnone]
    have hsmem : s ∈ combinedMonthly ds := by
      rw [hmem s]
      unfold carryForwardStage
      have hsIn : s ∈ wellRows ((wellsWithGap C).foldl (processWell H) C) r.well_name := by
        rw [hfold]
        exact List.mem_map.mpr ⟨s, hsW, hsfix⟩
      exact (mem_wellRows.mp hsIn).1
    have hFsort : ((sortChrono (wellRows C r.well_name)).filter
        (fun x => decide ((hasProdRow x ∨ hasInjRow x) ∧ ymLt x.ym r₁.ym))).Pairwise
        (fun a b => ymLe a.ym b.ym) :=
      List.Pairwise.sublist (List.filter_sublist _) hLsort
    have hmax : ∀ τ ∈ (sortChrono (wellRows C r.well_name)).filter
        (fun x => decide ((hasProdRow x ∨ hasInjRow x) ∧ ymLt x.ym r₁.ym)),
        ymLe τ.ym s.ym := by
      intro τ hτ
      rcases pairwise_getLast_max hFsort hlast' τ hτ with rfl | hle
      · exact ymLe_refl _
      · exact hle
    left
    refine ⟨s, hsmem, hsw, ?_, ?_, ?_, hwt⟩
    · rcases hsprop.1 with h | h
      · have h' : 0 < s.oil_rate ∨ 0 < s.water_rate := h
        rcases h' with h'' | h''
        · exact Or.inl h''
        · exact Or.inr (Or.inl h'')
      · exact Or.inr (Or.inr h)
    · rw [hym₁]
      exact hsprop.2
    · intro t ht htw hto htlt
      obtain ⟨t₁, ht₁F, ht₁ym⟩ := htrans t ht htw hto htlt
      have hle := hmax t₁ ht₁F
      rw [ht₁ym] at hle
      exact hle
  | none =>
    rw [hlast] at hwalk
    simp only [Option.elim_none] at hwalk
    obtain ⟨d1, d2, d3, d4, d5, d6⟩ := classifyRow_fields q
    rw [hqe] at d1 d2 d3 d4 d5 d6
    have hqz1 : q.oil_rate = 0 := by rw [← d4]; exact hz₁.1
    have hqz2 : q.water_rate = 0 := by rw [← d5]; exact hz₁.2.1
    have hqz3 : q.water_inj_rate = 0 := by rw [← d6]; exact hz₁.2.2
    have hseed : wellSeed H (sortChrono (wellRows C r.well_name)) r.well_name = none := by
      by_cases hobs : ∃ x ∈ sortChrono (wellRows C r.well_name), hasProdRow x ∨ hasInjRow x
      · obtain ⟨x, hx, hxobs⟩ := hobs
        rcases hxobs with hxo | hxo
        · have ha1 : ((sortChrono (wellRows C r.well_name)).any fun u =>
              decide (0 < u.oil_rate) || decide (0 < u.water_rate)) = true := by
            rw [List.any_eq_true]
            refine ⟨x, hx, ?_⟩
            have hx' : 0 < x.oil_rate ∨ 0 < x.water_rate := hxo
            rcases hx' with h | h
            · simp [h]
            · simp [h]
          simp only [wellSeed]
          rw [ha1]
          simp
        · have ha2 : ((sortChrono (wellRows C r.well_name)).any fun u =>
              decide (0 < u.water_inj_rate)) = true := by
            rw [List.any_eq_true]
            have hx' : 0 < x.water_inj_rate := hxo
            exact ⟨x, hx, by simp [hx']⟩
          simp only [wellSeed]
          rw [ha2]
          simp
      · push_neg at hobs
        have hz : ∀ x ∈ sortChrono (wellRows C r.well_name),
            x.oil_rate ≤ 0 ∧ x.water_rate ≤ 0 ∧ x.water_inj_rate ≤ 0 := by
          intro x hx
          have hnx := hobs x hx
          unfold hasProdRow hasInjRow at hnx
          push_neg at hnx
          exact ⟨hnx.1.1, hnx.1.2, hnx.2⟩
        have ha1 : ((sortChrono (wellRows C r.well_name)).any fun u =>
            decide (0 < u.oil_rate) || decide (0 < u.water_rate)) = false := by
          rw [List.any_eq_false]
          intro x hx
          obtain ⟨a, b, _⟩ := hz x hx
          simp only [Bool.or_eq_true, decide_eq_true_eq]
          push_neg
          exact ⟨a, b⟩
        have ha2 : ((sortChrono (wellRows C r.well_name)).any fun u =>
            decide (0 < u.water_inj_rate)) = false := by
          rw [List.any_eq_false]
          intro x hx
          simp only [decide_eq_true_eq]
          exact not_lt.mpr (hz x hx).2.2
        have hwin : r.well_name ∈ ((process_production_data ds).map ProdMonthly.well_name)
            ++ ((process_injection_data ds).map InjMonthly.well_name) := by
          rw [List.mem_append]
          rcases mem_mergeOuterWell.mp hqM with ⟨p, hp, hrest⟩ | ⟨i, hi, _, hqi⟩
          · left
            refine List.mem_map.mpr ⟨p, hp, ?_⟩
            rcases hrest with ⟨_, hqp⟩ | ⟨i, _, _, hqp⟩
            · rw [← hqname, hqp]
              rfl
            · rw [← hqname, hqp]
              rfl
          · right
            refine List.mem_map.mpr ⟨i, hi, ?_⟩
            rw [← hqname, hqi]
            rfl
        have hPz : ∀ p ∈ process_production_data ds, p.well_name = r.well_name →
            p.oil_rate ≤ 0 ∧ p.water_rate ≤ 0 := by
          intro p hp hpw
          obtain ⟨qp, hqpM, k1, k2, k3, k4, k5⟩ := mergeOuterWell_covers_prod p hp
          have hcq : classifyRow qp ∈ C := by
            rw [hC]
            exact List.mem_map_of_mem classifyRow hqpM
          obtain ⟨c1, _, _, c4, c5, _⟩ := classifyRow_fields qp
          have hcL : classifyRow qp ∈ sortChrono (wellRows C r.well_name) := by
            rw [(sortChrono_perm _).mem_iff]
            refine mem_wellRows.mpr ⟨hcq, ?_⟩
            rw [c1, k1, hpw]
          obtain ⟨a, b, _⟩ := hz _ hcL
          rw [c4, k4] at a
          rw [c5, k5] at b
          exact ⟨a, b⟩
        have hIz : ∀ i ∈ process_injection_data ds, i.well_name = r.well_name →
            i.water_inj_rate ≤ 0 := by
          intro i hi hiw
          obtain ⟨qi, hqiM, k1, k2⟩ := mergeOuterWell_covers_inj i hi
          have hcq : classifyRow qi ∈ C := by
            rw [hC]
            exact List.mem_map_of_mem classifyRow hqiM
          obtain ⟨c1, _, _, _, _, c6⟩ := classifyRow_fields qi
          have hcL : classifyRow qi ∈ sortChrono (wellRows C r.well_name) := by
            rw [(sortChrono_perm _).mem_iff]
            refine mem_wellRows.mpr ⟨hcq, ?_⟩
            rw [c1, k1, hiw]
          have a := (hz _ hcL).2.2
          rw [c6, k2] at a
          exact a
        have hs1 : ¬ 0 < (((process_production_data ds).filter fun x =>
            decide (x.well_name = r.well_name)).map ProdMonthly.oil_rate).sum := by
          apply not_lt.mpr
          apply sum_nonpos_of_forall
          intro v hv
          obtain ⟨p, hpF, rfl⟩ := List.mem_map.mp hv
          obtain ⟨hp, hpw⟩ := List.mem_filter.mp hpF
          exact (hPz p hp (by simpa using hpw)).1
        have hs2 : ¬ 0 < (((process_production_data ds).filter fun x =>
            decide (x.well_name = r.well_name)).map ProdMonthly.water_rate).sum := by
          apply not_lt.mpr
          apply sum_nonpos_of_forall
          intro v hv
          obtain ⟨p, hpF, rfl⟩ := List.mem_map.mp hv
          obtain ⟨hp, hpw⟩ := List.mem_filter.mp hpF
          exact (hPz p hp (by simpa using hpw)).2
        have hs3 : ¬ 0 < (((process_injection_data ds).filter fun x =>
            decide (x.well_name = r.well_name)).map InjMonthly.water_inj_rate).sum := by
          apply not_lt.mpr
          apply sum_nonpos_of_forall
          intro v hv
          obtain ⟨i, hiF, rfl⟩ := List.mem_map.mp hv
          obtain ⟨hi, hiw⟩ := List.mem_filter.mp hiF
          exact hIz i hi (by simpa using hiw)
        have hlook : histLookup H r.well_name = some (false, false) := by
          rw [hH, histLookup_calculate hwin, decide_eq_false hs1, decide_eq_false hs2,
            decide_eq_false hs3]
          rfl
        simp only [wellSeed]
        rw [ha1, ha2, hlook]
        simp
    rw [hseed] at hwalk
    have hfnone : ((assignsOf H C r.well_name).find? fun u =>
        decide (u.1 = (r₁.year, r₁.month))) = none := by
      rw [hpredeq, hA, hseed]
      exact Option.map_eq_none'.mp hwalk
    have hr1eq : r = r₁ := by
      rw [← hreq]
      unfold applyWalkRow
      rw [if_pos hr₁w, hfnone]
    have hqp : ¬ hasProdRow q := by
      unfold hasProdRow
      rw [hqz1, hqz2]
      simp
    have hqi : ¬ hasInjRow q := by
      unfold hasInjRow
      rw [hqz3]
      simp
    have hwtU : r.well_type = WellType.UNKNOWN := by
      rw [hr1eq, ← hqe, classifyRow_of_gap hqp hqi]
      exact (mergeOuterWell_defaults q hqM).1
    right
    refine ⟨?_, hwtU⟩
    intro t ht htw hto htlt
    obtain ⟨t₁, ht₁F, _⟩ := htrans t ht htw hto htlt
    unfold lastObserved at hlast
    rw [List.getLast?_eq_none_iff.mp hlast] at ht₁F
    cases ht₁F

/-- C1 counterexample: for dsLeadGap the presence-history index marks well
W with production and injection history (so the claim's seed would label a
leading gap month PRODUCTION), the January 2020 row has all rates 0 and no
observed month precedes it, yet its classified mode is UNKNOWN. -/
theorem C1_carry_forward_counterexample :
    histLookup (calculate_historical_well_types (process_production_data dsLeadGap)
      (process_injection_data dsLeadGap)) "W" = some (true, true) ∧
    ((combinedMonthly dsLeadGap).filter fun r =>
        decide (r.well_name = "W" ∧ r.year = 2020 ∧ r.month = 1)).map MRow.well_type
      = [.UNKNOWN] ∧
    ((combinedMonthly dsLeadGap).filter fun r =>
        decide (r.well_name = "W" ∧ r.year = 2020 ∧ r.month = 1)).map
      (fun r => (r.oil_rate, r.water_rate, r.water_inj_rate)) = [(0, 0, 0)] ∧
    (combinedMonthly dsLeadGap).filter (fun r =>
        decide (r.well_name = "W" ∧ (0 < r.oil_rate ∨ 0 < r.water_rate ∨ 0 < r.water_inj_rate)
          ∧ ymLt r.ym (2020, 1))) = [] ∧
    WellType.UNKNOWN ≠ WellType.PRODUCTION := by
  with_unfolding_all decide

/-- C1 amended: a month whose rates are all zero receives the observed mode
of the nearest preceding observed month of the same well; when no observed
month precedes it, it is labelled UNKNOWN in the general path (PRODUCTION
or INJECTION in the degenerate single-sided branches) — the documented
history seed never fires with the presence index computed from the same
data. -/
theorem C1_carry_forward_amended (ds : DataStore) :
    ∀ r ∈ combinedMonthly ds,
      r.oil_rate = 0 → r.water_rate = 0 → r.water_inj_rate = 0 →
      (∃ s ∈ combinedMonthly ds, s.well_name = r.well_name ∧
        (0 < s.oil_rate ∨ 0 < s.water_rate ∨ 0 < s.water_inj_rate) ∧ ymLt s.ym r.ym ∧
        (∀ t ∈ combinedMonthly ds, t.well_name = r.well_name →
          (0 < t.oil_rate ∨ 0 < t.water_rate ∨ 0 < t.water_inj_rate) → ymLt t.ym r.ym →
          ymLe t.ym s.ym) ∧
        r.well_type = observedMode s.oil_rate s.water_rate s.water_inj_rate) ∨
      ((∀ t ∈ combinedMonthly ds, t.well_name = r.well_name →
          (0 < t.oil_rate ∨ 0 < t.water_rate ∨ 0 < t.water_inj_rate) → ¬ ymLt t.ym r.ym) ∧
        r.well_type = (if process_production_data ds = [] then WellType.INJECTION
          else if process_injection_data ds = [] then WellType.PRODUCTION
          else WellType.UNKNOWN)) := by
  intro r hr h1 h2 h3
  by_cases hP : process_production_data ds = []
  · by_cases hI : process_injection_data ds = []
    · exfalso
      unfold combinedMonthly combine_and_classify_data at hr
      rw [if_pos ⟨hP, hI⟩] at hr
      cases hr
    · have hco : combinedMonthly ds
          = List.insertionSort (fun a b => wellSortLeB a b = true)
            ((process_injection_data ds).map fun i =>
              ⟨i.well_name, i.year, i.month, .INJECTION, 0, 0, i.water_inj_rate, 0⟩) := by
        unfold combinedMonthly combine_and_classify_data
        rw [if_neg (fun h => hI h.2), if_pos hP]
      have hshape : ∀ t ∈ combinedMonthly ds,
          t.well_type = .INJECTION ∧ t.oil_rate = 0 ∧ t.water_rate = 0 := by
        intro t ht
        rw [hco, List.mem_insertionSort] at ht
        obtain ⟨i, _, rfl⟩ := List.mem_map.mp ht
        exact ⟨rfl, rfl, rfl⟩
      by_cases hF : (combinedMonthly ds).filter (fun t =>
          decide (t.well_name = r.well_name ∧
            (0 < t.oil_rate ∨ 0 < t.water_rate ∨ 0 < t.water_inj_rate) ∧
            ymLt t.ym r.ym)) = []
      · right
        rw [List.filter_eq_nil_iff] at hF
        constructor
        · intro t ht htw hto htl
          have hft := hF t ht
          simp only [decide_eq_true_eq] at hft
          exact hft ⟨htw, hto, htl⟩
        · rw [if_pos hP]
          exact (hshape r hr).1
      · left
        obtain ⟨s, hsF, hsmax⟩ := exists_max_ym _ hF
        obtain ⟨hsmem, hspred⟩ := List.mem_filter.mp hsF
        obtain ⟨hsw, hso, hslt⟩ := of_decide_eq_true hspred
        refine ⟨s, hsmem, hsw, hso, hslt, ?_, ?_⟩
        · intro t ht htw hto htl
          exact hsmax t (List.mem_filter.mpr ⟨ht, by simpa using ⟨htw, hto, htl⟩⟩)
        · obtain ⟨hst, hso0, hsw0⟩ := hshape s hsmem
          obtain ⟨hrt, _, _⟩ := hshape r hr
          rw [hrt, hst] at *
          have hsinj : 0 < s.water_inj_rate := by
            rcases hso with h | h | h
            · rw [hso0] at h
              exact absurd h (lt_irrefl 0)
            · rw [hsw0] at h
              exact absurd h (lt_irrefl 0)
            · exact h
          unfold observedMode
          rw [hso0, hsw0]
          rw [if_neg (by intro hh; exact absurd hh.1 (by simp)), if_neg (by simp),
            if_pos hsinj]
  · by_cases hI : process_injection_data ds = []
    · have hco : combinedMonthly ds
          = List.insertionSort (fun a b => wellSortLeB a b = true)
            ((process_production_data ds).map fun p =>
              ⟨p.well_name, p.year, p.month, .PRODUCTION, p.oil_rate, p.water_rate, 0, 0⟩) := by
        unfold combinedMonthly combine_and_classify_data
        rw [if_neg (fun h => hP h.1), if_neg hP, if_pos hI]
      have hshape : ∀ t ∈ combinedMonthly ds,
          t.well_type = .PRODUCTION ∧ t.water_inj_rate = 0 := by
        intro t ht
        rw [hco, List.mem_insertionSort] at ht
        obtain ⟨p, _, rfl⟩ := List.mem_map.mp ht
        exact ⟨rfl, rfl⟩
      by_cases hF : (combinedMonthly ds).filter (fun t =>
          decide (t.well_name = r.well_name ∧
            (0 < t.oil_rate ∨ 0 < t.water_rate ∨ 0 < t.water_inj_rate) ∧
            ymLt t.ym r.ym)) = []
      · right
        rw [List.filter_eq_nil_iff] at hF
        constructor
        · intro t ht htw hto htl
          have hft := hF t ht
          simp only [decide_eq_true_eq] at hft
          exact hft ⟨htw, hto, htl⟩
        · rw [if_neg hP, if_pos hI]
          exact (hshape r hr).1
      · left
        obtain ⟨s, hsF, hsmax⟩ := exists_max_ym _ hF
        obtain ⟨hsmem, hspred⟩ := List.mem_filter.mp hsF
        obtain ⟨hsw, hso, hslt⟩ := of_decide_eq_true hspred
        refine ⟨s, hsmem, hsw, hso, hslt, ?_, ?_⟩
        · intro t ht htw hto htl
          exact hsmax t (List.mem_filter.mpr ⟨ht, by simpa using ⟨htw, hto, htl⟩⟩)
        · obtain ⟨hst, hsi0⟩ := hshape s hsmem
          obtain ⟨hrt, _⟩ := hshape r hr
          rw [hrt, hst] at *
          have hsprod : 0 < s.oil_rate ∨ 0 < s.water_rate := by
            rcases hso with h | h | h
            · exact Or.inl h
            · exact Or.inr h
            · rw [hsi0] at h
              exact absurd h (lt_irrefl 0)
          unfold observedMode
          rw [hsi0]
          rw [if_neg (by intro hh; exact absurd hh.2 (by simp)), if_pos hsprod]
    · rw [if_neg hP, if_neg hI]
      exact C1_merged_branch ds r hr h1 h2 h3 hP hI

theorem C1_carry_forward_amended_witness :
    (∃ s ∈ combinedMonthly dsGapAfterProd,
      s.well_name = (⟨"W", 2020, 2, .PRODUCTION, 0, 0, 0, 0⟩ : MRow).well_name ∧
      (0 < s.oil_rate ∨ 0 < s.water_rate ∨ 0 < s.water_inj_rate) ∧
      ymLt s.ym (⟨"W", 2020, 2, .PRODUCTION, 0, 0, 0, 0⟩ : MRow).ym ∧
      (∀ t ∈ combinedMonthly dsGapAfterProd,
        t.well_name = (⟨"W", 2020, 2, .PRODUCTION, 0, 0, 0, 0⟩ : MRow).well_name →
        (0 < t.oil_rate ∨ 0 < t.water_rate ∨ 0 < t.water_inj_rate) →
        ymLt t.ym (⟨"W", 2020, 2, .PRODUCTION, 0, 0, 0, 0⟩ : MRow).ym →
        ymLe t.ym s.ym) ∧
      (⟨"W", 2020, 2, .PRODUCTION, 0, 0, 0, 0⟩ : MRow).well_type
        = observedMode s.oil_rate s.water_rate s.water_inj_rate) ∨
    ((∀ t ∈ combinedMonthly dsGapAfterProd,
        t.well_name = (⟨"W", 2020, 2, .PRODUCTION, 0, 0, 0, 0⟩ : MRow).well_name →
        (0 < t.oil_rate ∨ 0 < t.water_rate ∨ 0 < t.water_inj_rate) →
        ¬ ymLt t.ym (⟨"W", 2020, 2, .PRODUCTION, 0, 0, 0, 0⟩ : MRow).ym) ∧
      (⟨"W", 2020, 2, .PRODUCTION, 0, 0, 0, 0⟩ : MRow).well_type
        = (if process_production_data dsGapAfterProd = [] then WellType.INJECTION
          else if process_injection_data dsGapAfterProd = [] then WellType.PRODUCTION
          else WellType.UNKNOWN)) :=
  C1_carry_forward_amended dsGapAfterProd ⟨"W", 2020, 2, .PRODUCTION, 0, 0, 0, 0⟩
    (by with_unfolding_all decide) rfl rfl rfl

theorem C7_is_active_iff_observed_witness :
    ((⟨"W", "C", "UNKNOWN", 2020, 1, 1, .PRODUCTION, 1, 0, 0⟩ : CompStatus).is_active = 1
      ↔ (0 < (⟨"W", "C", "UNKNOWN", 2020, 1, 1, .PRODUCTION, 1, 0, 0⟩ : CompStatus).oil_rate
        ∨ 0 < (⟨"W", "C", "UNKNOWN", 2020, 1, 1, .PRODUCTION, 1, 0, 0⟩ : CompStatus).water_rate
        ∨ 0 < (⟨"W", "C", "UNKNOWN", 2020, 1, 1,
            .PRODUCTION, 1, 0, 0⟩ : CompStatus).water_inj_rate)) :=
  C7_is_active_iff_observed dsGapAfterProd _ (by with_unfolding_all decide)

end WellApp
